import Mathlib

/-!
Verification of the hexagonal life-simulation repository.

The Python sources are shallowly embedded: pure computations become Lean
functions over `ℚ` (Python floats are modelled as exact rationals, and
`int(...)` truncation of a non-negative quantity as `Nat.floor`), fallible
code returns `Except`, and every call to the `random` module is driven by an
explicit oracle so that theorems quantify over all possible random draws.
-/

namespace LifeSim

/-! ## Embedding of `src/hexagons/plant_states.py` -/

/-- States of the plant lifecycle (`PlantState` enum). -/
inductive PlantState where
  | SEED
  | GROWING
  | MATURE
  | FLOWERING
  | DYING
  | DEAD
deriving DecidableEq, Repr

/-- Configuration constants from `src/config.py`. -/
def SEED_SURVIVAL_THRESHOLD : ℚ := 7/10

/-- `PLANT_FLOWERING_PROBABILITY = 0.3` from `src/config.py`. -/
def PLANT_FLOWERING_PROBABILITY : ℚ := 3/10

/-- `MAX_WATER_PERCENTAGE = 0.3` from `src/config.py`. -/
def MAX_WATER_PERCENTAGE : ℚ := 3/10

/-- State of a `PlantStateManager` object: the mutable attributes of the
Python class. -/
structure PlantStateManager where
  state : PlantState
  time_in_state : ℚ
  health : ℚ
  growth : ℚ
  seed_survival_threshold : ℚ
  flowering_probability : ℚ
  has_checked_flowering : Bool
deriving DecidableEq, Repr

namespace PlantStateManager

/-- `SEED_DURATION = 2.0`. -/
def SEED_DURATION : ℚ := 2

/-- `GROWTH_THRESHOLD = 3.0`. -/
def GROWTH_THRESHOLD : ℚ := 3

/-- `MATURE_MAX_TIME = 5.0`. -/
def MATURE_MAX_TIME : ℚ := 5

/-- `FLOWERING_DURATION = MATURE_MAX_TIME`. -/
def FLOWERING_DURATION : ℚ := MATURE_MAX_TIME

/-- `DYING_DURATION = 8.0`. -/
def DYING_DURATION : ℚ := 8

/-- `PlantStateManager.__init__`: the setters are called with the in-range
configuration constants `0.7` and `0.3`, so they store the values directly. -/
def init : PlantStateManager :=
  { state := .SEED
    time_in_state := 0
    health := 1
    growth := 0
    seed_survival_threshold := SEED_SURVIVAL_THRESHOLD
    flowering_probability := PLANT_FLOWERING_PROBABILITY
    has_checked_flowering := false }

/-- Setter of the `seed_survival_threshold` property.  A value outside
`[0, 1]` raises `ValueError`; this is modelled by `Except.error` carrying the
message. -/
def set_seed_survival_threshold (s : PlantStateManager) (v : ℚ) :
    Except String PlantStateManager :=
  if ¬ (0 ≤ v ∧ v ≤ 1) then
    .error "Seed survival threshold must be between 0 and 1"
  else
    .ok { s with seed_survival_threshold := v }

/-- Setter of the `flowering_probability` property. -/
def set_flowering_probability (s : PlantStateManager) (v : ℚ) :
    Except String PlantStateManager :=
  if ¬ (0 ≤ v ∧ v ≤ 1) then
    .error "Flowering probability must be between 0 and 1"
  else
    .ok { s with flowering_probability := v }

/-- Object state after attempting an assignment to `seed_survival_threshold`:
when the setter raises, the Python object keeps its previous attribute
values. -/
def apply_set_seed_survival_threshold (s : PlantStateManager) (v : ℚ) :
    PlantStateManager :=
  match s.set_seed_survival_threshold v with
  | .ok s' => s'
  | .error _ => s

/-- Object state after attempting an assignment to `flowering_probability`. -/
def apply_set_flowering_probability (s : PlantStateManager) (v : ℚ) :
    PlantStateManager :=
  match s.set_flowering_probability v with
  | .ok s' => s'
  | .error _ => s

/-- `PlantStateManager.update(dt)`.  The parameter `r` is the value returned
by `random.random()` should the update perform a random check (each call of
`update` performs at most one such check). -/
def update (s : PlantStateManager) (dt : ℚ) (r : ℚ) : PlantStateManager :=
  let s := { s with time_in_state := s.time_in_state + dt }
  match s.state with
  | .SEED =>
      if s.time_in_state ≥ SEED_DURATION then
        if r < s.seed_survival_threshold then
          { s with state := .GROWING, time_in_state := 0 }
        else
          { s with state := .DYING, time_in_state := 0 }
      else s
  | .GROWING =>
      let s := { s with growth := min 1 (s.time_in_state / GROWTH_THRESHOLD) }
      if s.growth ≥ 1 then
        { s with state := .MATURE, time_in_state := 0, has_checked_flowering := false }
      else s
  | .MATURE =>
      if s.time_in_state ≥ MATURE_MAX_TIME * (3/4) ∧ s.has_checked_flowering = false then
        let s := { s with has_checked_flowering := true }
        if r < s.flowering_probability then
          { s with state := .FLOWERING, time_in_state := 0 }
        else if s.time_in_state ≥ MATURE_MAX_TIME then
          { s with state := .DYING, time_in_state := 0 }
        else s
      else if s.time_in_state ≥ MATURE_MAX_TIME then
        { s with state := .DYING, time_in_state := 0 }
      else s
  | .FLOWERING =>
      if s.time_in_state ≥ FLOWERING_DURATION then
        { s with state := .DYING, time_in_state := 0 }
      else s
  | .DYING =>
      let s := { s with health := max 0 (1 - s.time_in_state / DYING_DURATION) }
      if s.health ≤ 0 then
        { s with state := .DEAD, time_in_state := 0 }
      else s
  | .DEAD => s

/-- Running a sequence of `update` calls from a starting object; each element
of the list provides the time step and the random draw for one call. -/
def runUpdates (s : PlantStateManager) (l : List (ℚ × ℚ)) : PlantStateManager :=
  l.foldl (fun t p => t.update p.1 p.2) s

/-- Inductive invariant of one `update` step: the timer stays non-negative and
`health`, `growth` stay in the unit interval. -/
def Inv (s : PlantStateManager) : Prop :=
  0 ≤ s.time_in_state ∧ 0 ≤ s.health ∧ s.health ≤ 1 ∧ 0 ≤ s.growth ∧ s.growth ≤ 1

theorem Inv.init : Inv PlantStateManager.init := by
  simp [Inv, PlantStateManager.init]

theorem Inv.update {s : PlantStateManager} (hs : Inv s) (dt r : ℚ) (hdt : 0 ≤ dt) :
    Inv (s.update dt r) := by
  obtain ⟨ht, hh0, hh1, hg0, hg1⟩ := hs
  unfold PlantStateManager.update
  cases h : s.state <;>
    simp only [h] <;>
    (try split_ifs) <;>
    refine ⟨?_, ?_, ?_, ?_, ?_⟩ <;>
    simp only [Inv, PlantStateManager.GROWTH_THRESHOLD, PlantStateManager.DYING_DURATION] <;>
    first
      | linarith
      | (apply le_min (by linarith) (by linarith))
      | (apply min_le_left)
      | (apply le_max_left)
      | (apply max_le (by linarith) (by linarith))

theorem Inv.runUpdates {s : PlantStateManager} (hs : Inv s) (l : List (ℚ × ℚ))
    (hl : ∀ p ∈ l, 0 ≤ p.1) : Inv (runUpdates s l) := by
  induction l generalizing s with
  | nil => exact hs
  | cons p l ih =>
      exact ih (hs.update p.1 p.2 (hl p (by simp))) (fun q hq => hl q (by simp [hq]))

end PlantStateManager

open PlantStateManager in
/-- Claim C6: in the MATURE state, when a single `update(dt)` call pushes
`time_in_state` past both the flowering-check threshold (`0.75·MATURE_MAX_TIME`)
and `MATURE_MAX_TIME` with the flowering latch unset, the flowering check runs
first; when its draw succeeds the plant moves to FLOWERING with its timer
reset, and the dying-threshold check is skipped in that same call. -/
theorem C6_mature_flowering_shortcircuits_dying
    (s : PlantStateManager) (dt r : ℚ)
    (hstate : s.state = .MATURE)
    (hflag : s.has_checked_flowering = false)
    (hbig : MATURE_MAX_TIME ≤ s.time_in_state + dt)
    (hdraw : r < s.flowering_probability) :
    (s.update dt r).state = .FLOWERING ∧ (s.update dt r).time_in_state = 0 := by
  have h34 : MATURE_MAX_TIME * (3/4) ≤ s.time_in_state + dt := by
    simp only [MATURE_MAX_TIME] at hbig ⊢; linarith
  unfold PlantStateManager.update
  simp only [hstate]
  rw [if_pos ⟨by simpa using h34, by simpa using hflag⟩, if_pos hdraw]
  exact ⟨rfl, rfl⟩

open PlantStateManager in
/-- Claim C6 witness. -/
theorem C6_mature_flowering_shortcircuits_dying_witness :
    (({ PlantStateManager.init with state := .MATURE } : PlantStateManager).update 6 0).state
        = .FLOWERING ∧
    (({ PlantStateManager.init with state := .MATURE } : PlantStateManager).update 6 0).time_in_state
        = 0 :=
  C6_mature_flowering_shortcircuits_dying _ 6 0 rfl rfl (by norm_num [PlantStateManager.init, MATURE_MAX_TIME]) (by norm_num [PlantStateManager.init, PLANT_FLOWERING_PROBABILITY])

open PlantStateManager in
/-- Claim C7: a freshly constructed manager driven with a single
`update(SEED_DURATION + eps)`, `eps > 0`, ends in GROWING or DYING for every
random draw, and DEAD is absorbing under any further `update(dt)`, `dt ≥ 0`. -/
theorem C7_seed_transition_and_dead_absorbing
    (eps r : ℚ) (heps : 0 < eps)
    (s : PlantStateManager) (dt r2 : ℚ) (hdead : s.state = .DEAD) (hdt : 0 ≤ dt) :
    ((PlantStateManager.init.update (SEED_DURATION + eps) r).state = .GROWING ∨
      (PlantStateManager.init.update (SEED_DURATION + eps) r).state = .DYING) ∧
    (s.update dt r2).state = .DEAD := by
  constructor
  · unfold PlantStateManager.update
    simp only [PlantStateManager.init]
    rw [if_pos (by simp only [SEED_DURATION]; linarith)]
    split_ifs <;> simp
  · unfold PlantStateManager.update
    simp only [hdead]

open PlantStateManager in
/-- Claim C7 witness. -/
theorem C7_seed_transition_and_dead_absorbing_witness :
    ((PlantStateManager.init.update (SEED_DURATION + 1) (1/2)).state = .GROWING ∨
      (PlantStateManager.init.update (SEED_DURATION + 1) (1/2)).state = .DYING) ∧
    (({ PlantStateManager.init with state := .DEAD } : PlantStateManager).update 3 0).state
        = .DEAD :=
  C7_seed_transition_and_dead_absorbing 1 (1/2) (by norm_num) _ 3 0 rfl (by norm_num)

/-- Claim C8: assigning `seed_survival_threshold` or `flowering_probability` a
value outside `[0,1]` raises an error and leaves the stored value unchanged;
any value inside `[0,1]` is accepted and stored. -/
theorem C8_probability_setters_validate
    (s : PlantStateManager) (v : ℚ) :
    ((0 ≤ v ∧ v ≤ 1) →
      s.set_seed_survival_threshold v = .ok { s with seed_survival_threshold := v } ∧
      s.set_flowering_probability v = .ok { s with flowering_probability := v }) ∧
    ((v < 0 ∨ 1 < v) →
      (∃ m1, s.set_seed_survival_threshold v = .error m1) ∧
      (∃ m2, s.set_flowering_probability v = .error m2) ∧
      (s.apply_set_seed_survival_threshold v).seed_survival_threshold
          = s.seed_survival_threshold ∧
      (s.apply_set_flowering_probability v).flowering_probability
          = s.flowering_probability) := by
  constructor
  · intro hv
    constructor <;>
      simp [PlantStateManager.set_seed_survival_threshold,
        PlantStateManager.set_flowering_probability, hv.1, hv.2]
  · intro hv
    have hcond : ¬ (0 ≤ v ∧ v ≤ 1) := by
      rcases hv with h | h <;> intro hc <;> linarith [hc.1, hc.2]
    refine ⟨⟨"Seed survival threshold must be between 0 and 1", ?_⟩,
        ⟨"Flowering probability must be between 0 and 1", ?_⟩, ?_, ?_⟩ <;>
      simp [PlantStateManager.set_seed_survival_threshold,
        PlantStateManager.set_flowering_probability,
        PlantStateManager.apply_set_seed_survival_threshold,
        PlantStateManager.apply_set_flowering_probability, hcond]

/-- Claim C8 witness (out-of-range value `-1/10` and in-range value `1/2`). -/
theorem C8_probability_setters_validate_witness :
    (((0:ℚ) ≤ (1/2:ℚ) ∧ (1/2:ℚ) ≤ 1) →
      PlantStateManager.init.set_seed_survival_threshold (1/2)
          = .ok { PlantStateManager.init with seed_survival_threshold := 1/2 } ∧
      PlantStateManager.init.set_flowering_probability (1/2)
          = .ok { PlantStateManager.init with flowering_probability := 1/2 }) ∧
    (((-1/10:ℚ) < 0 ∨ (1:ℚ) < (-1/10:ℚ)) →
      (∃ m1, PlantStateManager.init.set_seed_survival_threshold (-1/10) = .error m1) ∧
      (∃ m2, PlantStateManager.init.set_flowering_probability (-1/10) = .error m2) ∧
      (PlantStateManager.init.apply_set_seed_survival_threshold (-1/10)).seed_survival_threshold
          = PlantStateManager.init.seed_survival_threshold ∧
      (PlantStateManager.init.apply_set_flowering_probability (-1/10)).flowering_probability
          = PlantStateManager.init.flowering_probability) :=
  ⟨(C8_probability_setters_validate PlantStateManager.init (1/2)).1,
    (C8_probability_setters_validate PlantStateManager.init (-1/10)).2⟩

open PlantStateManager in
/-- Claim C9: from a freshly constructed manager, after any sequence of
`update(dt)` calls with every `dt ≥ 0` and any random draws, `health` and
`growth` lie in `[0, 1]`. -/
theorem C9_health_growth_unit_interval
    (l : List (ℚ × ℚ)) (hl : ∀ p ∈ l, 0 ≤ p.1) :
    0 ≤ (runUpdates PlantStateManager.init l).health ∧
    (runUpdates PlantStateManager.init l).health ≤ 1 ∧
    0 ≤ (runUpdates PlantStateManager.init l).growth ∧
    (runUpdates PlantStateManager.init l).growth ≤ 1 := by
  have h := Inv.runUpdates Inv.init l hl
  exact ⟨h.2.1, h.2.2.1, h.2.2.2.1, h.2.2.2.2⟩

open PlantStateManager in
/-- Claim C9 witness: a concrete run through the whole lifecycle. -/
theorem C9_health_growth_unit_interval_witness :
    0 ≤ (runUpdates PlantStateManager.init [(3, 0), (4, 0), (6, 1), (9, 0)]).health ∧
    (runUpdates PlantStateManager.init [(3, 0), (4, 0), (6, 1), (9, 0)]).health ≤ 1 ∧
    0 ≤ (runUpdates PlantStateManager.init [(3, 0), (4, 0), (6, 1), (9, 0)]).growth ∧
    (runUpdates PlantStateManager.init [(3, 0), (4, 0), (6, 1), (9, 0)]).growth ≤ 1 :=
  C9_health_growth_unit_interval [(3, 0), (4, 0), (6, 1), (9, 0)] (by norm_num)

/-! ## Embedding of the grid-geometry part of `HexMesh.__init__`
(`src/mesh/hex_mesh.py`, lines 46-51) -/

/-- `hex_width = 2 * display_width / (num_columns * 1.75)` followed by
`cell_size = hex_width / 2`; the float literal `1.75` is exactly `7/4`. -/
def cell_size (num_columns display_width : ℕ) : ℚ :=
  let hex_width : ℚ := 2 * display_width / (num_columns * (7/4))
  hex_width / 2

/-- `grid_width = num_columns * cell_size * 1.75` from `HexMesh.__init__`. -/
def grid_width (num_columns display_width : ℕ) : ℚ :=
  num_columns * cell_size num_columns display_width * (7/4)

/-- Claim C4 counterexample: on the grid `num_columns = num_rows = 1`,
`display_width = display_height = 100`, the computed cell side length is
`400/7`, which differs from the claimed `display_height / (num_rows·√3)
= 100/√3`. -/
theorem C4_counterexample :
    ¬ ((cell_size 1 100 : ℝ) = (100 : ℝ) / (1 * Real.sqrt 3)) := by
  intro h
  have hval : (cell_size 1 100 : ℝ) = 400 / 7 := by
    norm_num [cell_size]
  have hpos : (0 : ℝ) < Real.sqrt 3 := Real.sqrt_pos.mpr (by norm_num)
  have hsq : Real.sqrt 3 ^ 2 = 3 := Real.sq_sqrt (by norm_num)
  rw [hval] at h
  field_simp at h
  nlinarith [h, hsq, hpos]

/-- Claim C4 (amended): the cell side length is
`display_width / (num_columns · 1.75) = 4·display_width/(7·num_columns)`, so
that the grid's horizontal extent `num_columns · cell_size · 1.75` exactly
fills the display width. -/
theorem C4_cell_size_fills_width (num_columns display_width : ℕ)
    (hC : 1 ≤ num_columns) :
    cell_size num_columns display_width = 4 * display_width / (7 * num_columns) ∧
    grid_width num_columns display_width = display_width := by
  have hC0 : (num_columns : ℚ) ≠ 0 := by
    have : num_columns ≠ 0 := by omega
    exact_mod_cast this
  constructor
  · unfold cell_size
    field_simp
    ring
  · unfold grid_width cell_size
    field_simp
    ring

/-- Claim C4 (amended) witness. -/
theorem C4_cell_size_fills_width_witness :
    cell_size 2 700 = 4 * 700 / (7 * 2) ∧ grid_width 2 700 = 700 :=
  C4_cell_size_fills_width 2 700 (by norm_num)

/-! ## Embedding of `HexMesh._get_hex_index` and `HexMesh._get_adjacent_indices`
(`src/mesh/hex_mesh.py`, lines 103-170).  Candidate coordinates may be
negative, so they are modelled over `ℤ`; for non-negative operands Python's
`//` and `%` agree with `Int.ediv` and `Int.emod`. -/

/-- `HexMesh._get_hex_index(col, row)`: the column-major index, or `-1` for
out-of-range coordinates. -/
def get_hex_index (C R : ℕ) (c r : ℤ) : ℤ :=
  if 0 ≤ c ∧ c < C ∧ 0 ≤ r ∧ r < R then c * R + r else -1

/-- The six candidate neighbour coordinates of `_get_adjacent_indices`,
chosen by column parity. -/
def adjacent_positions (c r : ℤ) : List (ℤ × ℤ) :=
  if c % 2 = 0 then
    [(c-1, r-1), (c-1, r), (c, r+1), (c+1, r-1), (c+1, r), (c, r-1)]
  else
    [(c-1, r), (c-1, r+1), (c, r+1), (c+1, r), (c+1, r+1), (c, r-1)]

/-- `HexMesh._get_adjacent_indices(index)`: map the candidate coordinates
through `_get_hex_index` and keep the valid ones. -/
def get_adjacent_indices (C R : ℕ) (i : ℕ) : List ℤ :=
  let col : ℤ := (i : ℤ) / (R : ℤ)
  let row : ℤ := (i : ℤ) % (R : ℤ)
  ((adjacent_positions col row).map (fun p => get_hex_index C R p.1 p.2)).filter
    (fun x => x ≠ -1)

theorem adjacent_positions_length (c r : ℤ) : (adjacent_positions c r).length = 6 := by
  unfold adjacent_positions
  split_ifs <;> rfl

set_option maxHeartbeats 1000000 in
/-- The candidate-offset relation is symmetric: this is the arithmetic heart
of neighbour symmetry. -/
theorem adjacent_positions_symm {a b c r : ℤ}
    (h : (c, r) ∈ adjacent_positions a b) : (a, b) ∈ adjacent_positions c r := by
  rcases Int.emod_two_eq a with ha | ha <;> rcases Int.emod_two_eq c with hc | hc
  · rw [adjacent_positions, if_pos ha] at h
    rw [adjacent_positions, if_pos hc]
    norm_num [List.mem_cons, Prod.mk.injEq] at h ⊢
    omega
  · rw [adjacent_positions, if_pos ha] at h
    rw [adjacent_positions, if_neg (show ¬ c % 2 = 0 by omega)]
    norm_num [List.mem_cons, Prod.mk.injEq] at h ⊢
    omega
  · rw [adjacent_positions, if_neg (show ¬ a % 2 = 0 by omega)] at h
    rw [adjacent_positions, if_pos hc]
    norm_num [List.mem_cons, Prod.mk.injEq] at h ⊢
    omega
  · rw [adjacent_positions, if_neg (show ¬ a % 2 = 0 by omega)] at h
    rw [adjacent_positions, if_neg (show ¬ c % 2 = 0 by omega)]
    norm_num [List.mem_cons, Prod.mk.injEq] at h ⊢
    omega

theorem get_hex_index_valid {C R : ℕ} {c r : ℤ} (h : get_hex_index C R c r ≠ -1) :
    0 ≤ c ∧ c < C ∧ 0 ≤ r ∧ r < R ∧ get_hex_index C R c r = c * R + r := by
  unfold get_hex_index at h ⊢
  split_ifs at h ⊢ with hb
  · exact ⟨hb.1, hb.2.1, hb.2.2.1, hb.2.2.2, rfl⟩
  · exact absurd rfl h

theorem get_hex_index_inj {C R : ℕ} (hR : 0 < R) {c1 r1 c2 r2 : ℤ}
    (h1 : get_hex_index C R c1 r1 ≠ -1) (h2 : get_hex_index C R c2 r2 ≠ -1)
    (heq : get_hex_index C R c1 r1 = get_hex_index C R c2 r2) :
    c1 = c2 ∧ r1 = r2 := by
  obtain ⟨hc1, -, hr1, hr1R, he1⟩ := get_hex_index_valid h1
  obtain ⟨hc2, -, hr2, hr2R, he2⟩ := get_hex_index_valid h2
  rw [he1, he2] at heq
  have hRZ : (0 : ℤ) < R := by exact_mod_cast hR
  have hcc : c1 = c2 := by
    rcases lt_trichotomy c1 c2 with h | h | h
    · exfalso
      have h1' : c1 + 1 ≤ c2 := h
      have := mul_le_mul_of_nonneg_right h1' (le_of_lt hRZ)
      nlinarith
    · exact h
    · exfalso
      have h1' : c2 + 1 ≤ c1 := h
      have := mul_le_mul_of_nonneg_right h1' (le_of_lt hRZ)
      nlinarith
  subst hcc
  exact ⟨rfl, by linarith⟩

theorem adjacent_positions_nodup (c r : ℤ) : (adjacent_positions c r).Nodup := by
  unfold adjacent_positions
  split_ifs <;> (simp [Prod.ext_iff]; omega)

theorem nodup_get_adjacent_indices (C R : ℕ) (hR : 0 < R) (i : ℕ) :
    (get_adjacent_indices C R i).Nodup := by
  unfold get_adjacent_indices
  rw [List.filter_map]
  apply List.Nodup.map_on
  · rintro ⟨x1, x2⟩ hx ⟨y1, y2⟩ hy hxy
    have hx' := (List.mem_filter.mp hx).2
    have hy' := (List.mem_filter.mp hy).2
    simp only [Function.comp, decide_eq_true_eq, ne_eq] at hx' hy'
    obtain ⟨h1, h2⟩ := get_hex_index_inj hR hx' hy' hxy
    simp [h1, h2]
  · exact (adjacent_positions_nodup _ _).filter _

theorem mem_get_adjacent_iff (C R : ℕ) (hR : 0 < R) (i : ℕ) (j : ℤ) :
    j ∈ get_adjacent_indices C R i ↔
    ∃ c2 r2 : ℤ, 0 ≤ c2 ∧ c2 < C ∧ 0 ≤ r2 ∧ r2 < R ∧ j = c2 * R + r2 ∧
      (c2, r2) ∈ adjacent_positions ((i : ℤ) / R) ((i : ℤ) % R) := by
  unfold get_adjacent_indices
  simp only [List.mem_filter, List.mem_map, decide_eq_true_eq, ne_eq]
  constructor
  · rintro ⟨⟨⟨c2, r2⟩, hmem, rfl⟩, hne⟩
    obtain ⟨hc0, hcC, hr0, hrR, heq⟩ := get_hex_index_valid hne
    exact ⟨c2, r2, hc0, hcC, hr0, hrR, heq, hmem⟩
  · rintro ⟨c2, r2, hc0, hcC, hr0, hrR, rfl, hmem⟩
    have hval : get_hex_index C R c2 r2 = c2 * R + r2 := by
      unfold get_hex_index
      rw [if_pos ⟨hc0, hcC, hr0, hrR⟩]
    have hnn : (0 : ℤ) ≤ c2 * R + r2 := by
      have : (0 : ℤ) ≤ c2 * R := mul_nonneg hc0 (by positivity)
      linarith
    refine ⟨⟨⟨c2, r2⟩, hmem, hval⟩, ?_⟩
    intro hbad
    linarith [hnn]

theorem int_col_row {R : ℕ} (hR : 0 < R) {c r : ℤ} (hr0 : 0 ≤ r) (hrR : r < R) :
    (c * R + r) / R = c ∧ (c * R + r) % R = r := by
  have hRZ : (R : ℤ) ≠ 0 := by
    have : (0 : ℤ) < R := by exact_mod_cast hR
    omega
  constructor
  · rw [add_comm, Int.add_mul_ediv_right _ _ hRZ, Int.ediv_eq_zero_of_lt hr0 hrR,
      zero_add]
  · rw [add_comm, Int.add_mul_emod_self]
    exact Int.emod_eq_of_lt hr0 hrR

/-- Every entry of the neighbour list is a valid in-range index. -/
theorem adj_index_bound (C R : ℕ) (hR0 : 0 < R) (a : ℕ) (j : ℤ)
    (hj : j ∈ get_adjacent_indices C R a) : 0 ≤ j ∧ j < (C * R : ℕ) := by
  have hRZ : (0 : ℤ) < R := by exact_mod_cast hR0
  obtain ⟨c2, r2, hc0, hcC, hr0, hrR, rfl, -⟩ := (mem_get_adjacent_iff C R hR0 a j).mp hj
  have h1 : (0 : ℤ) ≤ c2 * R := mul_nonneg hc0 (le_of_lt hRZ)
  have h2 : (c2 + 1) * R ≤ C * R :=
    mul_le_mul_of_nonneg_right (by omega) (le_of_lt hRZ)
  constructor
  · linarith
  · push_cast
    nlinarith

/-- Neighbour membership is symmetric between valid indices. -/
theorem adj_symm_mem (C R : ℕ) (hR0 : 0 < R) (a b : ℕ) (ha : a < C * R)
    (hmem : (b : ℤ) ∈ get_adjacent_indices C R a) :
    (a : ℤ) ∈ get_adjacent_indices C R b := by
  have hRZ : (0 : ℤ) < R := by exact_mod_cast hR0
  obtain ⟨c2, r2, hc0, hcC, hr0, hrR, hbe, hpos⟩ :=
    (mem_get_adjacent_iff C R hR0 a (b : ℤ)).mp hmem
  have hbcol : ((b : ℤ) / R) = c2 := by rw [hbe]; exact (int_col_row hR0 hr0 hrR).1
  have hbrow : ((b : ℤ) % R) = r2 := by rw [hbe]; exact (int_col_row hR0 hr0 hrR).2
  refine (mem_get_adjacent_iff C R hR0 b (a : ℤ)).mpr
    ⟨(a : ℤ) / R, (a : ℤ) % R, ?_, ?_, ?_, ?_, ?_, ?_⟩
  · exact Int.ediv_nonneg (by positivity) (le_of_lt hRZ)
  · rw [Int.ediv_lt_iff_lt_mul hRZ]
    exact_mod_cast ha
  · exact Int.emod_nonneg _ (by omega)
  · exact Int.emod_lt_of_pos _ hRZ
  · rw [mul_comm]
    exact (Int.ediv_add_emod (a : ℤ) R).symm
  · rw [hbcol, hbrow]
    exact adjacent_positions_symm hpos

/-- Claim C1: for a grid with at least one column and one row, the neighbour
list of every cell index has at most six entries, no duplicates, only indices
inside `[0, num_columns·num_rows)`, and membership is symmetric. -/
theorem C1_adjacency_bounded_nodup_symmetric
    (C R : ℕ) (hC : 1 ≤ C) (hR : 1 ≤ R) (i : ℕ) (hi : i < C * R) :
    (get_adjacent_indices C R i).length ≤ 6 ∧
    (get_adjacent_indices C R i).Nodup ∧
    (∀ j ∈ get_adjacent_indices C R i, 0 ≤ j ∧ j < (C * R : ℕ)) ∧
    (∀ j : ℕ, j < C * R →
      ((j : ℤ) ∈ get_adjacent_indices C R i ↔ (i : ℤ) ∈ get_adjacent_indices C R j)) := by
  have hR0 : 0 < R := hR
  have key : ∀ a : ℕ, a < C * R → ∀ j : ℤ, j ∈ get_adjacent_indices C R a →
      (0 ≤ j ∧ j < (C * R : ℕ)) := fun a _ j hj => adj_index_bound C R hR0 a j hj
  have symm1 : ∀ a b : ℕ, a < C * R → b < C * R →
      (b : ℤ) ∈ get_adjacent_indices C R a → (a : ℤ) ∈ get_adjacent_indices C R b :=
    fun a b ha _ hmem => adj_symm_mem C R hR0 a b ha hmem
  refine ⟨?_, nodup_get_adjacent_indices C R hR0 i, key i hi, ?_⟩
  · unfold get_adjacent_indices
    calc _ ≤ (((adjacent_positions _ _).map fun p => get_hex_index C R p.1 p.2)).length :=
          List.length_filter_le _ _
      _ = 6 := by rw [List.length_map, adjacent_positions_length]
  · intro j hj
    constructor
    · exact symm1 i j hi hj
    · exact symm1 j i hj hi

/-- Claim C1 witness (a 2×2 grid, index 0). -/
theorem C1_adjacency_bounded_nodup_symmetric_witness :
    (get_adjacent_indices 2 2 0).length ≤ 6 ∧
    (get_adjacent_indices 2 2 0).Nodup ∧
    (∀ j ∈ get_adjacent_indices 2 2 0, 0 ≤ j ∧ j < ((2 * 2 : ℕ) : ℤ)) ∧
    (∀ j : ℕ, j < 2 * 2 →
      ((j : ℤ) ∈ get_adjacent_indices 2 2 0 ↔ ((0 : ℕ) : ℤ) ∈ get_adjacent_indices 2 2 j)) :=
  C1_adjacency_bounded_nodup_symmetric 2 2 (by norm_num) (by norm_num) 0 (by norm_num)

/-! ## Embedding of the cell classes (`src/hexagons/base.py`, `ground.py`,
`water.py`, `plant.py`) and of `HexMesh.update`
(`src/mesh/hex_mesh.py`, lines 286-341) -/

/-- Which subclass of `Hexagon` a cell is, together with the mutable state a
`PlantHexagon` carries (`state_manager` and `animation_time`).  The
render-only `flower_angle` attribute, a float computed with `math.sin`, is
not modelled: nothing reads it back. -/
inductive CellKind where
  | ground
  | water
  | plant (state_manager : PlantStateManager) (animation_time : ℚ)
deriving DecidableEq, Repr

/-- Geometric state shared by all `Hexagon` subclasses (`base.py`): centre
coordinates `cx`, `cy` and side length `a`. -/
structure HexCell where
  cx : ℚ
  cy : ℚ
  a : ℚ
  kind : CellKind
deriving DecidableEq, Repr

/-- `isinstance(hex, WaterHexagon)`. -/
def HexCell.isWaterCell (h : HexCell) : Bool :=
  match h.kind with
  | .water => true
  | _ => false

/-- `isinstance(hexagon, PlantHexagon) and hexagon.state_manager.state == PlantState.DEAD`. -/
def HexCell.isDeadPlant (h : HexCell) : Bool :=
  match h.kind with
  | .plant sm _ => sm.state = .DEAD
  | _ => false

/-- `GroundHexagon(plant.cx, plant.cy, plant.a)`. -/
def groundOf (c : HexCell) : HexCell := ⟨c.cx, c.cy, c.a, .ground⟩

/-- Per-cell `update(t)` dispatch: `GroundHexagon.update` and
`WaterHexagon.update` are no-ops; `PlantHexagon.update` advances the state
manager (consuming at most one random draw `r`) and accumulates
`animation_time` while flowering. -/
def updateCell (h : HexCell) (t r : ℚ) : HexCell :=
  match h.kind with
  | .ground => h
  | .water => h
  | .plant sm anim =>
      let sm2 := sm.update t r
      let anim2 := if sm2.state = .FLOWERING then anim + t else anim
      { h with kind := .plant sm2 anim2 }

/-- State of a `HexMesh` object. -/
structure HexMesh where
  num_columns : ℕ
  num_rows : ℕ
  hexagons : List HexCell
  grid_bounds : ℚ × ℚ × ℚ × ℚ
  cell_size : ℚ
deriving DecidableEq, Repr

/-- The error raised by `_convert_plants_to_ground`: a `ValueError` whose
message reports the offending plant position and the grid bounds. -/
structure ConversionError where
  cx : ℚ
  cy : ℚ
  bounds : ℚ × ℚ × ℚ × ℚ
deriving DecidableEq, Repr

/-- `HexMesh._is_position_valid(cx, cy)`: inclusive bounds check expanded by
half a cell side. -/
def HexMesh.is_position_valid (m : HexMesh) (cx cy : ℚ) : Bool :=
  let left := m.grid_bounds.1
  let right := m.grid_bounds.2.1
  let top := m.grid_bounds.2.2.1
  let bottom := m.grid_bounds.2.2.2
  let margin := m.cell_size / 2
  decide (left - margin ≤ cx ∧ cx ≤ right + margin ∧
    top - margin ≤ cy ∧ cy ≤ bottom + margin)

/-- `HexMesh._convert_plants_to_ground(dead_plants)`: validate every entry
first (raising on the first failure), then convert all of them. -/
def HexMesh.convert_plants_to_ground (m : HexMesh)
    (dead_plants : List (ℕ × HexCell)) : Except ConversionError (List HexCell) :=
  match dead_plants.find? (fun p => ! m.is_position_valid p.2.cx p.2.cy) with
  | some p => .error ⟨p.2.cx, p.2.cy, m.grid_bounds⟩
  | none => .ok (dead_plants.foldl (fun hs p => hs.set p.1 (groundOf p.2)) m.hexagons)

/-- The per-cell update pass of `HexMesh.update(t)`.  `draws i` is the random
draw available to cell `i`; quantifying over all `draws` functions covers
every realizable sequence of `random.random()` results. -/
def HexMesh.updatedCells (m : HexMesh) (t : ℚ) (draws : ℕ → ℚ) : List HexCell :=
  m.hexagons.enum.map (fun p => updateCell p.2 t (draws p.1))

/-- The dead-plant collection of `HexMesh.update(t)`. -/
def deadPlantsOf (cells : List HexCell) : List (ℕ × HexCell) :=
  cells.enum.filter (fun p => p.2.isDeadPlant)

/-- `HexMesh.update(t)`: update every cell, then convert the dead plants in
bulk; a validation failure propagates as an error. -/
def HexMesh.update (m : HexMesh) (t : ℚ) (draws : ℕ → ℚ) :
    Except ConversionError HexMesh :=
  let updated := m.updatedCells t draws
  let m1 : HexMesh := { m with hexagons := updated }
  let dead_plants := deadPlantsOf updated
  if dead_plants.isEmpty then .ok m1
  else
    match m1.convert_plants_to_ground dead_plants with
    | .ok hs => .ok { m1 with hexagons := hs }
    | .error e => .error e

/-- The hexagons list held by the Python object when `update` returns or
raises: cell updates mutate in place, and the conversion loop runs only after
every validation succeeded, so on error the list is the post-update,
pre-conversion one. -/
def HexMesh.hexagonsAfterUpdate (m : HexMesh) (t : ℚ) (draws : ℕ → ℚ) :
    List HexCell :=
  match m.update t draws with
  | .ok m2 => m2.hexagons
  | .error _ => m.updatedCells t draws

theorem foldl_set_not_mem (l : List (ℕ × HexCell)) (u : List HexCell) (i : ℕ)
    (h : ∀ p ∈ l, p.1 ≠ i) :
    (l.foldl (fun hs p => hs.set p.1 (groundOf p.2)) u)[i]? = u[i]? := by
  induction l generalizing u with
  | nil => rfl
  | cons q l ih =>
      rw [List.foldl_cons, ih _ (fun p hp => h p (List.mem_cons_of_mem q hp))]
      exact List.getElem?_set_ne (h q (List.mem_cons_self q l))

theorem foldl_set_mem (l : List (ℕ × HexCell)) (u : List HexCell) (i : ℕ)
    (c : HexCell) (hmem : (i, c) ∈ l) (hi : i < u.length)
    (huniq : ∀ p ∈ l, p.1 = i → p.2 = c) :
    (l.foldl (fun hs p => hs.set p.1 (groundOf p.2)) u)[i]? = some (groundOf c) := by
  induction l generalizing u with
  | nil => cases hmem
  | cons q l ih =>
      rw [List.foldl_cons]
      by_cases hq : ∃ p ∈ l, p.1 = i
      · obtain ⟨p, hp, hpi⟩ := hq
        have hpc : p.2 = c := huniq p (List.mem_cons_of_mem q hp) hpi
        have hpl : (i, c) ∈ l := by
          have : p = (i, c) := Prod.ext hpi hpc
          rwa [this] at hp
        exact ih _ hpl (by simpa using hi)
          (fun p' hp' h' => huniq p' (List.mem_cons_of_mem q hp') h')
      · push_neg at hq
        rcases List.mem_cons.mp hmem with hqe | hin
        · rw [← hqe]
          rw [foldl_set_not_mem l _ i (fun p hp => hq p hp)]
          exact List.getElem?_set_self (by simpa using hi)
        · exact absurd rfl (hq (i, c) hin)

theorem mem_deadPlantsOf {cells : List HexCell} {i : ℕ} {c : HexCell} :
    (i, c) ∈ deadPlantsOf cells ↔ cells[i]? = some c ∧ c.isDeadPlant := by
  unfold deadPlantsOf
  rw [List.mem_filter, List.mk_mem_enum_iff_getElem?]

theorem updatedCells_length (m : HexMesh) (t : ℚ) (draws : ℕ → ℚ) :
    (m.updatedCells t draws).length = m.hexagons.length := by
  unfold HexMesh.updatedCells
  rw [List.length_map, List.enum_length]

theorem updatedCells_getElem (m : HexMesh) (t : ℚ) (draws : ℕ → ℚ) (i : ℕ)
    (hi : i < m.hexagons.length) :
    (m.updatedCells t draws)[i]? = some (updateCell m.hexagons[i] t (draws i)) := by
  unfold HexMesh.updatedCells
  rw [List.getElem?_eq_getElem
    (by simpa [List.length_map, List.enum_length] using hi)]
  rw [List.getElem_map, List.getElem_enum]

/-- Characterization of the conversion fold: dead-plant indices become ground
cells with the same geometry, all other indices are untouched. -/
theorem convert_fold_spec (u : List HexCell) (i : ℕ) (hi : i < u.length) :
    ((deadPlantsOf u).foldl (fun hs p => hs.set p.1 (groundOf p.2)) u)[i]? =
      some (if u[i].isDeadPlant then groundOf u[i] else u[i]) := by
  by_cases hd : u[i].isDeadPlant
  · rw [if_pos hd]
    refine foldl_set_mem _ u i u[i] ?_ hi ?_
    · exact mem_deadPlantsOf.mpr ⟨List.getElem?_eq_getElem hi, hd⟩
    · rintro ⟨j, c⟩ hp h'
      subst h'
      have := (mem_deadPlantsOf.mp hp).1
      rw [List.getElem?_eq_getElem hi] at this
      simpa using this.symm
  · rw [if_neg hd]
    have hnm : ∀ p ∈ deadPlantsOf u, p.1 ≠ i := by
      rintro ⟨j, c⟩ hp h'
      obtain ⟨hc, hdead⟩ := mem_deadPlantsOf.mp hp
      apply hd
      have hji : j = i := h'
      rw [hji, List.getElem?_eq_getElem hi] at hc
      have hcu : c = u[i] := by simpa using hc.symm
      rwa [hcu] at hdead
    rw [foldl_set_not_mem _ u i hnm, List.getElem?_eq_getElem hi]

/-- Default cell used only as the `getD` fallback in statements; every use
is guarded by an in-range index. -/
def dfltCell : HexCell := ⟨0, 0, 0, .ground⟩

theorem is_position_valid_hexagons_irrel (m : HexMesh) (u : List HexCell)
    (cx cy : ℚ) :
    ({ m with hexagons := u } : HexMesh).is_position_valid cx cy
      = m.is_position_valid cx cy := rfl

theorem foldl_set_length (l : List (ℕ × HexCell)) (u : List HexCell) :
    (l.foldl (fun hs p => hs.set p.1 (groundOf p.2)) u).length = u.length := by
  induction l generalizing u with
  | nil => rfl
  | cons q l ih => rw [List.foldl_cons, ih, List.length_set]

theorem update_ok_hexagons (m : HexMesh) (t : ℚ) (draws : ℕ → ℚ) (m2 : HexMesh)
    (hok : m.update t draws = .ok m2) :
    m2.hexagons.length = m.hexagons.length ∧
    ∀ i, i < m.hexagons.length →
      m2.hexagons[i]? = some
        (if (m.updatedCells t draws).getD i dfltCell |>.isDeadPlant then
          groundOf ((m.updatedCells t draws).getD i dfltCell)
        else (m.updatedCells t draws).getD i dfltCell) := by
  have hlen := updatedCells_length m t draws
  unfold HexMesh.update at hok
  by_cases hde : (deadPlantsOf (m.updatedCells t draws)).isEmpty
  · rw [if_pos hde] at hok
    have hm2 : m2.hexagons = m.updatedCells t draws := by
      cases hok
      rfl
    have hnil : deadPlantsOf (m.updatedCells t draws) = [] := List.isEmpty_iff.mp hde
    constructor
    · rw [hm2, hlen]
    · intro i hi
      have hiu : i < (m.updatedCells t draws).length := by rwa [hlen]
      have hnotdead : ¬ ((m.updatedCells t draws)[i].isDeadPlant = true) := by
        intro hbad
        have : ((i, (m.updatedCells t draws)[i]) ∈
            deadPlantsOf (m.updatedCells t draws)) :=
          mem_deadPlantsOf.mpr ⟨List.getElem?_eq_getElem hiu, hbad⟩
        rw [hnil] at this
        cases this
      rw [hm2, List.getElem?_eq_getElem hiu,
        List.getD_eq_getElem?_getD, List.getElem?_eq_getElem hiu]
      simp [hnotdead]
  · rw [if_neg hde] at hok
    unfold HexMesh.convert_plants_to_ground at hok
    rcases hfind : ((deadPlantsOf (m.updatedCells t draws)).find?
        (fun p => ! ({ m with hexagons := m.updatedCells t draws } : HexMesh).is_position_valid p.2.cx p.2.cy)) with - | p₀
    · rw [hfind] at hok
      simp only [Except.ok.injEq] at hok
      have hm2 : m2.hexagons = (deadPlantsOf (m.updatedCells t draws)).foldl
          (fun hs p => hs.set p.1 (groundOf p.2)) (m.updatedCells t draws) := by
        rw [← hok]
      constructor
      · rw [hm2, foldl_set_length, hlen]
      · intro i hi
        have hiu : i < (m.updatedCells t draws).length := by rwa [hlen]
        rw [hm2, convert_fold_spec _ i hiu,
          List.getD_eq_getElem?_getD, List.getElem?_eq_getElem hiu]
        rfl
    · rw [hfind] at hok
      cases hok
theorem update_error_of_find (m : HexMesh) (t : ℚ) (draws : ℕ → ℚ)
    (p₀ : ℕ × HexCell)
    (hfind : (deadPlantsOf (m.updatedCells t draws)).find?
      (fun p => ! ({ m with hexagons := m.updatedCells t draws } : HexMesh).is_position_valid p.2.cx p.2.cy) = some p₀) :
    m.update t draws = .error ⟨p₀.2.cx, p₀.2.cy, m.grid_bounds⟩ := by
  have hmem := List.mem_of_find?_eq_some hfind
  have hde : ¬ ((deadPlantsOf (m.updatedCells t draws)).isEmpty = true) := by
    intro h
    rw [List.isEmpty_iff.mp h] at hmem
    cases hmem
  unfold HexMesh.update HexMesh.convert_plants_to_ground
  rw [if_neg hde, hfind]

/-- Claim C5: `HexMesh.update` validates every dead plant's centre against the
half-cell-expanded grid bounds first; when all validate, each dead plant is
replaced by a ground cell with identical centre and side length and nothing
else is touched; when some dead plant fails validation, the update raises an
error carrying the offending position and the bounds, and the conversion step
changes no cell at all. -/
theorem C5_conversion_validates_first_all_or_nothing
    (m : HexMesh) (t : ℚ) (draws : ℕ → ℚ) :
    ((∀ p ∈ deadPlantsOf (m.updatedCells t draws),
        m.is_position_valid p.2.cx p.2.cy = true) →
      ∃ m2, m.update t draws = .ok m2 ∧
        (∀ p ∈ deadPlantsOf (m.updatedCells t draws),
          m2.hexagons[p.1]? = some (groundOf p.2)) ∧
        (∀ i, i < m.hexagons.length →
          (∀ p ∈ deadPlantsOf (m.updatedCells t draws), p.1 ≠ i) →
          m2.hexagons[i]? = (m.updatedCells t draws)[i]?)) ∧
    (∀ p₀, (deadPlantsOf (m.updatedCells t draws)).find?
        (fun p => ! m.is_position_valid p.2.cx p.2.cy) = some p₀ →
      m.update t draws = .error ⟨p₀.2.cx, p₀.2.cy, m.grid_bounds⟩ ∧
      m.hexagonsAfterUpdate t draws = m.updatedCells t draws) := by
  constructor
  · intro hvalid
    have hok : ∃ m2, m.update t draws = .ok m2 := by
      by_cases hde : ((deadPlantsOf (m.updatedCells t draws)).isEmpty = true)
      · refine ⟨{ m with hexagons := m.updatedCells t draws }, ?_⟩
        unfold HexMesh.update
        rw [if_pos hde]
      · have hnone : (deadPlantsOf (m.updatedCells t draws)).find?
            (fun p => ! ({ m with hexagons := m.updatedCells t draws } : HexMesh).is_position_valid p.2.cx p.2.cy) = none := by
          rw [List.find?_eq_none]
          intro x hx
          simp [is_position_valid_hexagons_irrel, hvalid x hx]
        have hres : ∃ res, res = (deadPlantsOf (m.updatedCells t draws)).foldl
            (fun hs p => hs.set p.1 (groundOf p.2)) (m.updatedCells t draws) :=
          ⟨_, rfl⟩
        obtain ⟨res, hres⟩ := hres
        refine ⟨{ m with hexagons := res }, ?_⟩
        unfold HexMesh.update HexMesh.convert_plants_to_ground
        rw [if_neg hde, hnone, hres]
    obtain ⟨m2, hok⟩ := hok
    obtain ⟨hlen, hspec⟩ := update_ok_hexagons m t draws m2 hok
    refine ⟨m2, hok, ?_, ?_⟩
    · intro p hp
      obtain ⟨hc, hdead⟩ := mem_deadPlantsOf.mp hp
      have hlt : p.1 < (m.updatedCells t draws).length := by
        rcases List.getElem?_eq_some.mp hc with ⟨h, -⟩
        exact h
      have hi : p.1 < m.hexagons.length := by
        rwa [updatedCells_length] at hlt
      have := hspec p.1 hi
      rw [List.getD_eq_getElem?_getD, hc] at this
      simpa [hdead] using this
    · intro i hi hnot
      have hiu : i < (m.updatedCells t draws).length := by
        rwa [updatedCells_length]
      have hnd : ¬ ((m.updatedCells t draws)[i].isDeadPlant = true) := by
        intro hbad
        exact hnot (i, (m.updatedCells t draws)[i])
          (mem_deadPlantsOf.mpr ⟨List.getElem?_eq_getElem hiu, hbad⟩) rfl
      have := hspec i hi
      rw [List.getD_eq_getElem?_getD, List.getElem?_eq_getElem hiu] at this
      rw [List.getElem?_eq_getElem hiu]
      simpa [hnd] using this
  · intro p₀ hfind
    have herr := update_error_of_find m t draws p₀ hfind
    refine ⟨herr, ?_⟩
    unfold HexMesh.hexagonsAfterUpdate
    rw [herr]

/-- Claim C10: a successful `HexMesh.update` never changes the number of
cells, nor any cell's centre or side length; ground and water cells keep
their kind, and a plant cell becomes a ground cell exactly when its updated
lifecycle state is DEAD (otherwise it stays a plant with the updated state
manager). -/
theorem C10_update_frame
    (m : HexMesh) (t : ℚ) (draws : ℕ → ℚ) (m2 : HexMesh)
    (hok : m.update t draws = .ok m2) :
    m2.hexagons.length = m.hexagons.length ∧
    ∀ i, (hi : i < m.hexagons.length) →
      ∃ c2, m2.hexagons[i]? = some c2 ∧
        c2.cx = m.hexagons[i].cx ∧ c2.cy = m.hexagons[i].cy ∧
        c2.a = m.hexagons[i].a ∧
        (match m.hexagons[i].kind with
         | .ground => c2.kind = .ground
         | .water => c2.kind = .water
         | .plant sm anim =>
             if (sm.update t (draws i)).state = .DEAD then c2.kind = .ground
             else c2.kind = .plant (sm.update t (draws i))
               (if (sm.update t (draws i)).state = .FLOWERING then anim + t else anim)) := by
  obtain ⟨hlen, hspec⟩ := update_ok_hexagons m t draws m2 hok
  refine ⟨hlen, ?_⟩
  intro i hi
  have hiu : i < (m.updatedCells t draws).length := by
    rwa [updatedCells_length]
  have hu : (m.updatedCells t draws)[i]? = some (updateCell m.hexagons[i] t (draws i)) :=
    updatedCells_getElem m t draws i hi
  have hspec_i := hspec i hi
  rw [List.getD_eq_getElem?_getD, hu] at hspec_i
  refine ⟨_, hspec_i, ?_⟩
  rcases hc : m.hexagons[i] with ⟨cx, cy, a, k⟩
  cases k with
  | ground => simp [updateCell, HexCell.isDeadPlant]
  | water => simp [updateCell, HexCell.isDeadPlant]
  | plant sm anim =>
      by_cases hdead : (sm.update t (draws i)).state = .DEAD
      · simp [updateCell, HexCell.isDeadPlant, hdead, groundOf]
      · simp [updateCell, HexCell.isDeadPlant, hdead]

/-- A plant state manager that has already died (used by concrete witnesses). -/
def witnessPSMdead : PlantStateManager := ⟨.DEAD, 0, 0, 1, 7/10, 3/10, true⟩

/-- A 1×1 mesh holding one dead plant whose centre lies inside the bounds. -/
def witnessMeshOK : HexMesh :=
  ⟨1, 1, [⟨5, 5, 2, .plant witnessPSMdead 0⟩], (0, 10, 0, 10), 2⟩

/-- A 1×1 mesh holding one dead plant whose centre lies far outside the
bounds. -/
def witnessMeshBad : HexMesh :=
  ⟨1, 1, [⟨100, 100, 2, .plant witnessPSMdead 0⟩], (0, 1, 0, 1), 2⟩

/-- Claim C5 witness: the valid mesh converts its dead plant, the invalid
mesh raises with the offending position and bounds. -/
theorem C5_conversion_validates_first_all_or_nothing_witness :
    ((∀ p ∈ deadPlantsOf (witnessMeshOK.updatedCells 1 (fun _ => 0)),
        witnessMeshOK.is_position_valid p.2.cx p.2.cy = true) ∧
      (∃ m2, witnessMeshOK.update 1 (fun _ => 0) = .ok m2 ∧
        (∀ p ∈ deadPlantsOf (witnessMeshOK.updatedCells 1 (fun _ => 0)),
          m2.hexagons[p.1]? = some (groundOf p.2)) ∧
        (∀ i, i < witnessMeshOK.hexagons.length →
          (∀ p ∈ deadPlantsOf (witnessMeshOK.updatedCells 1 (fun _ => 0)), p.1 ≠ i) →
          m2.hexagons[i]? = (witnessMeshOK.updatedCells 1 (fun _ => 0))[i]?))) ∧
    ((deadPlantsOf (witnessMeshBad.updatedCells 1 (fun _ => 0))).find?
        (fun p => ! witnessMeshBad.is_position_valid p.2.cx p.2.cy)
        = some (0, ⟨100, 100, 2, .plant ⟨.DEAD, 1, 0, 1, 7/10, 3/10, true⟩ 0⟩) ∧
      witnessMeshBad.update 1 (fun _ => 0) = .error ⟨100, 100, (0, 1, 0, 1)⟩ ∧
      witnessMeshBad.hexagonsAfterUpdate 1 (fun _ => 0)
        = witnessMeshBad.updatedCells 1 (fun _ => 0)) :=
  ⟨⟨by
      norm_num [witnessMeshOK, witnessPSMdead, HexMesh.updatedCells, updateCell,
        PlantStateManager.update, deadPlantsOf, HexCell.isDeadPlant,
        HexMesh.is_position_valid, List.enum, List.enumFrom, List.filter],
    (C5_conversion_validates_first_all_or_nothing witnessMeshOK 1 (fun _ => 0)).1
      (by
        norm_num [witnessMeshOK, witnessPSMdead, HexMesh.updatedCells, updateCell,
          PlantStateManager.update, deadPlantsOf, HexCell.isDeadPlant,
          HexMesh.is_position_valid, List.enum, List.enumFrom, List.filter])⟩,
   ⟨by
      norm_num [witnessMeshBad, witnessPSMdead, HexMesh.updatedCells, updateCell,
        PlantStateManager.update, deadPlantsOf, HexCell.isDeadPlant,
        HexMesh.is_position_valid, List.enum, List.enumFrom, List.filter,
        List.find?]
      decide,
    (C5_conversion_validates_first_all_or_nothing witnessMeshBad 1 (fun _ => 0)).2
      (0, ⟨100, 100, 2, .plant ⟨.DEAD, 1, 0, 1, 7/10, 3/10, true⟩ 0⟩)
      (by
        norm_num [witnessMeshBad, witnessPSMdead, HexMesh.updatedCells, updateCell,
          PlantStateManager.update, deadPlantsOf, HexCell.isDeadPlant,
          HexMesh.is_position_valid, List.enum, List.enumFrom, List.filter,
          List.find?]
        decide)⟩⟩

/-- Claim C10 witness: on the 1×1 dead-plant mesh, the update keeps the cell
count and geometry and converts the dead plant to ground. -/
theorem C10_update_frame_witness :
    witnessMeshOK.update 1 (fun _ => 0)
      = .ok (⟨1, 1, [⟨5, 5, 2, .ground⟩], (0, 10, 0, 10), 2⟩ : HexMesh) ∧
    ((⟨1, 1, [⟨5, 5, 2, .ground⟩], (0, 10, 0, 10), 2⟩ : HexMesh).hexagons.length
        = witnessMeshOK.hexagons.length ∧
      ∀ i, (hi : i < witnessMeshOK.hexagons.length) →
        ∃ c2, (⟨1, 1, [⟨5, 5, 2, .ground⟩], (0, 10, 0, 10), 2⟩ : HexMesh).hexagons[i]?
            = some c2 ∧
          c2.cx = witnessMeshOK.hexagons[i].cx ∧
          c2.cy = witnessMeshOK.hexagons[i].cy ∧
          c2.a = witnessMeshOK.hexagons[i].a ∧
          (match witnessMeshOK.hexagons[i].kind with
           | .ground => c2.kind = .ground
           | .water => c2.kind = .water
           | .plant sm anim =>
               if (sm.update 1 ((fun _ => (0:ℚ)) i)).state = .DEAD then c2.kind = .ground
               else c2.kind = .plant (sm.update 1 ((fun _ => (0:ℚ)) i))
                 (if (sm.update 1 ((fun _ => (0:ℚ)) i)).state = .FLOWERING then anim + 1
                  else anim))) :=
  ⟨by
    norm_num [witnessMeshOK, witnessPSMdead, HexMesh.update, HexMesh.updatedCells,
      updateCell, PlantStateManager.update, deadPlantsOf, HexCell.isDeadPlant,
      HexMesh.convert_plants_to_ground, HexMesh.is_position_valid, groundOf,
      List.enum, List.enumFrom, List.filter, List.find?, List.foldl, List.set],
   C10_update_frame witnessMeshOK 1 (fun _ => 0) _
     (by
       norm_num [witnessMeshOK, witnessPSMdead, HexMesh.update, HexMesh.updatedCells,
         updateCell, PlantStateManager.update, deadPlantsOf, HexCell.isDeadPlant,
         HexMesh.convert_plants_to_ground, HexMesh.is_position_valid, groundOf,
         List.enum, List.enumFrom, List.filter, List.find?, List.foldl, List.set])⟩

/-! ## Embedding of the terrain-generation part of `HexMesh`
(`_grow_water_group` and `_generate_water_groups`,
`src/mesh/hex_mesh.py`, lines 172-278).

Calls to the `random` module are driven by an integer oracle `r : ℕ → ℕ`
consumed at an explicit position `k`; quantifying theorems over every `r`
covers every realizable sequence of random results:
`random.randint(a,b)` becomes `a + r k % (b-a+1)` (every value of `[a,b]` is
reached by some oracle), `random.choice` over a Python set becomes selection
of the `r k % card`-th element (every element is reached by some oracle), and
`random.sample(l, n)` becomes `n` repeated oracle-indexed removals (every
`n`-element sub-selection is reached by some oracle). -/

/-- `random.randint(a, b)` (value, next oracle position). -/
def randint (r : ℕ → ℕ) (k a b : ℕ) : ℕ × ℕ := (a + r k % (b - a + 1), k + 1)

/-- `random.choice(list(s))` for a Python set `s` (value, next position). -/
def pickFinset (r : ℕ → ℕ) (k : ℕ) (s : Finset ℕ) : ℕ × ℕ :=
  ((s.sort (· ≤ ·)).getD (r k % s.card) 0, k + 1)

/-- `random.sample(l, n)` (chosen elements, next position). -/
def sampleList (r : ℕ → ℕ) : ℕ → List ℕ → ℕ → (List ℕ × ℕ)
  | k, _, 0 => ([], k)
  | k, l, n+1 =>
      if l.isEmpty then ([], k)
      else
        let i := r k % l.length
        let x := l.getD i 0
        let rest := sampleList r (k+1) (l.eraseIdx i) n
        (x :: rest.1, rest.2)

/-- `sum(1 for hex in hexagons if isinstance(hex, WaterHexagon))`. -/
def countWater (cells : List HexCell) : ℕ :=
  (cells.filter (fun h => h.isWaterCell)).length

/-- `int(total_hexagons * MAX_WATER_PERCENTAGE)`: truncation of a
non-negative float is the floor. -/
def max_water_hexagons (total : ℕ) : ℕ :=
  Nat.floor ((total : ℚ) * MAX_WATER_PERCENTAGE)

/-- The neighbour indices as naturals: every valid index returned by
`_get_adjacent_indices` is non-negative, and Python indexes `hexagons` with
it directly. -/
def adjacentNat (C R : ℕ) (i : ℕ) : List ℕ :=
  (get_adjacent_indices C R i).map Int.toNat

/-- `any(isinstance(self.hexagons[adj_idx], WaterHexagon) for adj_idx in
self._get_adjacent_indices(index))`. -/
def hasWaterAdjacent (m : HexMesh) (i : ℕ) : Bool :=
  (adjacentNat m.num_columns m.num_rows i).any
    (fun j => (m.hexagons.getD j dfltCell).isWaterCell)

/-- The `while` loop of `_grow_water_group`: `fuel` counts the remaining
attempts (out of `max_attempts = 20`).  The early `return set(), ...` on a
dead end with fewer than four cells stops the loop with a small group, which
the caller then empties — the same result the Python early return produces. -/
def growLoop (m : HexMesh) (avail : Finset ℕ) (target : ℕ) (r : ℕ → ℕ) :
    ℕ → ℕ → Finset ℕ → Finset ℕ → (Finset ℕ × Finset ℕ × ℕ)
  | 0, k, wg, toRemove => (wg, toRemove, k)
  | fuel+1, k, wg, toRemove =>
      if wg.card < target then
        let pick := pickFinset r k wg
        let valid_adjacent := (adjacentNat m.num_columns m.num_rows pick.1).filter
          (fun idx => decide (idx ∈ avail) && ! hasWaterAdjacent m idx)
        if valid_adjacent.isEmpty ∧ wg.card < 4 then
          (wg, toRemove, pick.2)
        else if valid_adjacent.isEmpty then
          growLoop m avail target r fuel pick.2 wg toRemove
        else
          let ri := randint r pick.2 1 3
          let n := min valid_adjacent.length (min ri.1 (target - wg.card))
          let sm := sampleList r ri.2 valid_adjacent n
          growLoop m avail target r fuel sm.2 (wg ∪ sm.1.toFinset)
            (toRemove ∪ sm.1.toFinset)
      else (wg, toRemove, k)

/-- `HexMesh._grow_water_group(start_index, available_indices)`, returning
the water group, the indices to remove from `available`, and the next oracle
position.  `remaining_capacity` is compared over ℕ: when the capacity is
negative the Python comparison `< 4` holds as well, and `target_size` is not
computed on that path. -/
def grow_water_group (m : HexMesh) (start : ℕ) (avail : Finset ℕ)
    (r : ℕ → ℕ) (k : ℕ) : Finset ℕ × Finset ℕ × ℕ :=
  let water_count := countWater m.hexagons
  let max_water := max_water_hexagons m.hexagons.length
  if max_water - water_count < 4 then (∅, {start}, k)
  else
    let ri := randint r k 4 8
    let target := min ri.1 (max_water - water_count)
    if hasWaterAdjacent m start then (∅, {start}, ri.2)
    else
      match growLoop m avail target r 20 ri.2 {start} {start} with
      | (wg, toRemove, k2) =>
          if wg.card < 4 then (∅, toRemove, k2) else (wg, toRemove, k2)

/-- `self.hexagons[idx] = WaterHexagon(self.hexagons[idx].cx, ..., .a)` for
each index of the group. -/
def commitWater (cells : List HexCell) (wg : Finset ℕ) : List HexCell :=
  (wg.sort (· ≤ ·)).foldl
    (fun hs idx => hs.set idx { hs.getD idx dfltCell with kind := .water }) cells

/-- The `while` loop of `_generate_water_groups`, with `fuel` counting the
remaining attempts (out of `max_attempts = total // 2`).  Besides the mesh it
carries the committed groups `gs` as an instrumentation trace used only by
the correctness statements. -/
def genLoop (r : ℕ → ℕ) (maxW : ℕ) :
    ℕ → HexMesh → Finset ℕ → ℕ → ℕ → List (Finset ℕ) →
      (HexMesh × List (Finset ℕ) × ℕ)
  | 0, m, _, _, k, gs => (m, gs, k)
  | fuel+1, m, avail, wc, k, gs =>
      if wc < maxW then
        if avail = ∅ then (m, gs, k)
        else
          let pick := pickFinset r k avail
          if maxW < wc + 4 then (m, gs, pick.2)
          else
            match grow_water_group m pick.1 avail r pick.2 with
            | (wg, toRemove, k2) =>
                if wg ≠ ∅ ∧ wc + wg.card ≤ maxW then
                  genLoop r maxW fuel
                    { m with hexagons := commitWater m.hexagons wg }
                    (avail \ toRemove) (wc + wg.card) k2 (gs ++ [wg])
                else
                  genLoop r maxW fuel m (avail \ toRemove) wc k2 gs
      else (m, gs, k)

/-- `HexMesh._generate_water_groups()`, returning the final mesh and the
trace of committed groups. -/
def generate_water_groups (m : HexMesh) (r : ℕ → ℕ) (k : ℕ) :
    HexMesh × List (Finset ℕ) :=
  let total := m.hexagons.length
  let maxW := max_water_hexagons total
  let wc := countWater m.hexagons
  if wc ≥ maxW then (m, [])
  else
    let avail := (Finset.range total).filter
      (fun i => ! (m.hexagons.getD i dfltCell).isWaterCell)
    match genLoop r maxW (total / 2) m avail wc k [] with
    | (m2, gs, _) => (m2, gs)

theorem foldl_commit_length (l : List ℕ) (cells : List HexCell) :
    (l.foldl (fun hs idx => hs.set idx { hs.getD idx dfltCell with kind := .water })
      cells).length = cells.length := by
  induction l generalizing cells with
  | nil => rfl
  | cons j l ih => rw [List.foldl_cons, ih, List.length_set]

theorem foldl_commit_getElem (l : List ℕ) (cells : List HexCell) (hnd : l.Nodup)
    (hin : ∀ j ∈ l, j < cells.length) (i : ℕ) (hi : i < cells.length) :
    (l.foldl (fun hs idx => hs.set idx { hs.getD idx dfltCell with kind := .water })
        cells)[i]? =
      some (if i ∈ l then { cells[i] with kind := .water } else cells[i]) := by
  induction l generalizing cells with
  | nil =>
      simp only [List.foldl_nil, List.not_mem_nil, if_false]
      exact List.getElem?_eq_getElem hi
  | cons j l ih =>
      rw [List.foldl_cons]
      have hjlen : j < cells.length := hin j (List.mem_cons_self j l)
      have hw : cells.getD j dfltCell = cells[j] := by
        rw [List.getD_eq_getElem?_getD, List.getElem?_eq_getElem hjlen]
        rfl
      have hlen' : (cells.set j { cells.getD j dfltCell with kind := .water }).length
          = cells.length := List.length_set cells j _
      have hih := ih (cells.set j { cells.getD j dfltCell with kind := .water })
        hnd.of_cons
        (fun x hx => by rw [hlen']; exact hin x (List.mem_cons_of_mem j hx))
        (by rwa [hlen'])
      rw [hih]
      by_cases hij : i = j
      · subst hij
        have hnl : i ∉ l := by
          intro hbad
          exact (List.nodup_cons.mp hnd).1 hbad
        rw [if_neg hnl, if_pos (List.mem_cons_self i l)]
        have : (cells.set i { cells.getD i dfltCell with kind := .water })[i]
            = { cells.getD i dfltCell with kind := .water } :=
          List.getElem_set_self (by rwa [hlen'])
        rw [this, hw]
      · have hset : (cells.set j { cells.getD j dfltCell with kind := .water })[i]
            = cells[i] :=
          List.getElem_set_ne (fun h => hij h.symm) (by rwa [hlen'])
        rw [hset]
        by_cases hil : i ∈ l
        · rw [if_pos hil, if_pos (List.mem_cons_of_mem j hil)]
        · rw [if_neg hil, if_neg (by simp [List.mem_cons, hij, hil])]

theorem countWater_set_water (cells : List HexCell) (j : ℕ) (c : HexCell)
    (hold : ¬ ((cells.getD j dfltCell).isWaterCell = true))
    (hj : j < cells.length) (hc : c.isWaterCell = true) :
    countWater (cells.set j c) = countWater cells + 1 := by
  unfold countWater
  rw [← List.countP_eq_length_filter, ← List.countP_eq_length_filter]
  have hold' : ¬ (cells[j].isWaterCell = true) := by
    rwa [List.getD_eq_getElem?_getD, List.getElem?_eq_getElem hj] at hold
  clear hold
  induction cells generalizing j with
  | nil => cases hj
  | cons h tl ih =>
      cases j with
      | zero =>
          simp only [List.set_cons_zero, List.countP_cons]
          simp only [List.getElem_cons_zero] at hold'
          rw [if_pos hc, if_neg hold']
      | succ j =>
          simp only [List.set_cons_succ, List.countP_cons]
          have hj' : j < tl.length := by simpa using hj
          have hold2 : ¬ (tl[j].isWaterCell = true) := by
            simpa using hold'
          rw [ih j hj' hold2]
          ring

theorem foldl_commit_count (l : List ℕ) (cells : List HexCell) (hnd : l.Nodup)
    (hin : ∀ j ∈ l, j < cells.length)
    (hnw : ∀ j ∈ l, ¬ ((cells.getD j dfltCell).isWaterCell = true)) :
    countWater (l.foldl
        (fun hs idx => hs.set idx { hs.getD idx dfltCell with kind := .water })
        cells) = countWater cells + l.length := by
  induction l generalizing cells with
  | nil => rfl
  | cons j l ih =>
      rw [List.foldl_cons]
      have hjlen : j < cells.length := hin j (List.mem_cons_self j l)
      have hlen' : (cells.set j { cells.getD j dfltCell with kind := .water }).length
          = cells.length := List.length_set cells j _
      have hstep : countWater (cells.set j { cells.getD j dfltCell with kind := .water })
          = countWater cells + 1 :=
        countWater_set_water cells j _ (hnw j (List.mem_cons_self j l)) hjlen rfl
      have hih := ih (cells.set j { cells.getD j dfltCell with kind := .water })
        hnd.of_cons
        (fun x hx => by rw [hlen']; exact hin x (List.mem_cons_of_mem j hx))
        (fun x hx => by
          have hxj : x ≠ j := by
            intro h
            exact (List.nodup_cons.mp hnd).1 (h ▸ hx)
          rw [List.getD_eq_getElem?_getD, List.getElem?_set_ne (fun h => hxj h.symm),
            ← List.getD_eq_getElem?_getD]
          exact hnw x (List.mem_cons_of_mem j hx))
      rw [hih, hstep, List.length_cons]
      ring

theorem commitWater_length (cells : List HexCell) (wg : Finset ℕ) :
    (commitWater cells wg).length = cells.length :=
  foldl_commit_length _ cells

theorem commitWater_getElem (cells : List HexCell) (wg : Finset ℕ)
    (hin : ∀ j ∈ wg, j < cells.length) (i : ℕ) (hi : i < cells.length) :
    (commitWater cells wg)[i]? =
      some (if i ∈ wg then { cells[i] with kind := .water } else cells[i]) := by
  unfold commitWater
  rw [foldl_commit_getElem _ cells (Finset.sort_nodup _ wg)
    (fun j hj => hin j ((Finset.mem_sort _).mp hj)) i hi]
  by_cases hiw : i ∈ wg
  · rw [if_pos hiw, if_pos ((Finset.mem_sort _).mpr hiw)]
  · rw [if_neg hiw, if_neg (fun h => hiw ((Finset.mem_sort _).mp h))]

theorem commitWater_count (cells : List HexCell) (wg : Finset ℕ)
    (hin : ∀ j ∈ wg, j < cells.length)
    (hnw : ∀ j ∈ wg, ¬ ((cells.getD j dfltCell).isWaterCell = true)) :
    countWater (commitWater cells wg) = countWater cells + wg.card := by
  unfold commitWater
  rw [foldl_commit_count _ cells (Finset.sort_nodup _ wg)
    (fun j hj => hin j ((Finset.mem_sort _).mp hj))
    (fun j hj => hnw j ((Finset.mem_sort _).mp hj)), Finset.length_sort]

/-- The neighbour relation between natural indices on a `C × R` grid. -/
def Adj (C R : ℕ) (i j : ℕ) : Prop := (j : ℤ) ∈ get_adjacent_indices C R i

theorem adj_entries_nonneg {C R : ℕ} {i : ℕ} {z : ℤ}
    (hz : z ∈ get_adjacent_indices C R i) : 0 ≤ z := by
  unfold get_adjacent_indices at hz
  simp only [List.mem_filter, List.mem_map, decide_eq_true_eq, ne_eq] at hz
  obtain ⟨⟨p, -, rfl⟩, hne⟩ := hz
  obtain ⟨hc0, -, hr0, -, heq⟩ := get_hex_index_valid hne
  rw [heq]
  have : (0 : ℤ) ≤ p.1 * R := mul_nonneg hc0 (by positivity)
  linarith

theorem mem_adjacentNat_iff {C R : ℕ} {i j : ℕ} :
    j ∈ adjacentNat C R i ↔ Adj C R i j := by
  unfold adjacentNat Adj
  constructor
  · intro hx
    obtain ⟨z, hz, rfl⟩ := List.mem_map.mp hx
    rwa [Int.toNat_of_nonneg (adj_entries_nonneg hz)]
  · intro h
    exact List.mem_map.mpr ⟨(j : ℤ), h, Int.toNat_natCast j⟩

theorem adj_lt {C R : ℕ} (hR0 : 0 < R) {i j : ℕ} (h : Adj C R i j) : j < C * R := by
  have := (adj_index_bound C R hR0 i (j : ℤ) h).2
  exact_mod_cast this

theorem adj_symm {C R : ℕ} (hR0 : 0 < R) {i j : ℕ} (hi : i < C * R)
    (h : Adj C R i j) : Adj C R j i :=
  adj_symm_mem C R hR0 i j hi h

/-- Reachability inside a set of indices along the neighbour relation. -/
inductive ReachIn (C R : ℕ) (W : Finset ℕ) : ℕ → ℕ → Prop where
  | refl (x : ℕ) (hx : x ∈ W) : ReachIn C R W x x
  | tail {x y z : ℕ} (h : ReachIn C R W x y) (ha : Adj C R y z) (hz : z ∈ W) :
      ReachIn C R W x z

theorem ReachIn.mem_left {C R : ℕ} {W : Finset ℕ} {x y : ℕ}
    (h : ReachIn C R W x y) : x ∈ W := by
  induction h with
  | refl hx => exact hx
  | tail _ _ _ ih => exact ih

theorem ReachIn.mem_right {C R : ℕ} {W : Finset ℕ} {x y : ℕ}
    (h : ReachIn C R W x y) : y ∈ W := by
  cases h with
  | refl hx => exact hx
  | tail _ _ hz => exact hz

theorem ReachIn.mono {C R : ℕ} {W W2 : Finset ℕ} (hW : W ⊆ W2) {x y : ℕ}
    (h : ReachIn C R W x y) : ReachIn C R W2 x y := by
  induction h with
  | refl hx => exact .refl _ (hW hx)
  | tail _ ha hz ih => exact .tail ih ha (hW hz)

theorem ReachIn.trans {C R : ℕ} {W : Finset ℕ} {x y z : ℕ}
    (h1 : ReachIn C R W x y) (h2 : ReachIn C R W y z) : ReachIn C R W x z := by
  induction h2 with
  | refl _ => exact h1
  | tail _ ha hz ih => exact .tail ih ha hz

theorem ReachIn.symm {C R : ℕ} (hR0 : 0 < R) {W : Finset ℕ}
    (hW : ∀ w ∈ W, w < C * R) {x y : ℕ}
    (h : ReachIn C R W x y) : ReachIn C R W y x := by
  induction h with
  | refl hx => exact .refl _ hx
  | tail hxy ha hz ih =>
      refine ReachIn.trans ?_ ih
      exact .tail (.refl _ hz) (adj_symm hR0 (hW _ hxy.mem_right) ha) hxy.mem_right

theorem pickFinset_mem (r : ℕ → ℕ) (k : ℕ) (s : Finset ℕ) (hs : s.Nonempty) :
    (pickFinset r k s).1 ∈ s := by
  unfold pickFinset
  have hcard : 0 < s.card := Finset.card_pos.mpr hs
  have hidx : r k % s.card < (s.sort (· ≤ ·)).length := by
    rw [Finset.length_sort]
    exact Nat.mod_lt _ hcard
  have hval : (s.sort (· ≤ ·)).getD (r k % s.card) 0
      = (s.sort (· ≤ ·))[r k % s.card] := by
    rw [List.getD_eq_getElem?_getD, List.getElem?_eq_getElem hidx]
    rfl
  simp only [hval]
  exact (Finset.mem_sort _).mp (List.getElem_mem hidx)

theorem sampleList_subset (r : ℕ → ℕ) (n : ℕ) :
    ∀ (k : ℕ) (l : List ℕ), ∀ x ∈ (sampleList r k l n).1, x ∈ l := by
  induction n with
  | zero =>
      intro k l x hx
      simp [sampleList] at hx
  | succ n ih =>
      intro k l x hx
      unfold sampleList at hx
      by_cases he : l.isEmpty
      · simp [he] at hx
      · simp only [he, Bool.false_eq_true, if_false, List.mem_cons] at hx
        rcases hx with rfl | hx
        · have hlen : 0 < l.length := by
            cases l with
            | nil => simp at he
            | cons a tl => simp
          have hidx : r k % l.length < l.length := Nat.mod_lt _ hlen
          have : l.getD (r k % l.length) 0 = l[r k % l.length] := by
            rw [List.getD_eq_getElem?_getD, List.getElem?_eq_getElem hidx]
            rfl
          rw [this]
          exact List.getElem_mem hidx
        · exact List.mem_of_mem_eraseIdx (ih (k+1) (l.eraseIdx (r k % l.length)) x hx)

theorem growLoop_inv (m : HexMesh) (avail : Finset ℕ) (target : ℕ) (r : ℕ → ℕ)
    (start : ℕ) (fuel : ℕ) :
    ∀ (k : ℕ) (wg toRemove : Finset ℕ),
      wg ⊆ avail →
      wg ⊆ toRemove →
      (∀ x ∈ wg, ¬ (hasWaterAdjacent m x = true)) →
      start ∈ wg →
      (∀ x ∈ wg, ReachIn m.num_columns m.num_rows wg start x) →
      (growLoop m avail target r fuel k wg toRemove).1 ⊆ avail ∧
      (growLoop m avail target r fuel k wg toRemove).1
        ⊆ (growLoop m avail target r fuel k wg toRemove).2.1 ∧
      (∀ x ∈ (growLoop m avail target r fuel k wg toRemove).1,
        ¬ (hasWaterAdjacent m x = true)) ∧
      start ∈ (growLoop m avail target r fuel k wg toRemove).1 ∧
      (∀ x ∈ (growLoop m avail target r fuel k wg toRemove).1,
        ReachIn m.num_columns m.num_rows
          (growLoop m avail target r fuel k wg toRemove).1 start x) := by
  induction fuel with
  | zero =>
      intro k wg toRemove h1 h2 h3 h4 h5
      exact ⟨h1, h2, h3, h4, h5⟩
  | succ fuel ih =>
      intro k wg toRemove h1 h2 h3 h4 h5
      simp only [growLoop]
      split_ifs with hlt hdead hempty
      · exact ⟨h1, h2, h3, h4, h5⟩
      · exact ih _ wg toRemove h1 h2 h3 h4 h5
      · -- sampling branch
        have hcur : (pickFinset r k wg).1 ∈ wg := pickFinset_mem r k wg ⟨start, h4⟩
        have hsub : ∀ x ∈ (sampleList r (randint r (pickFinset r k wg).2 1 3).2
            ((adjacentNat m.num_columns m.num_rows (pickFinset r k wg).1).filter
              (fun idx => decide (idx ∈ avail) && ! hasWaterAdjacent m idx))
            (min ((adjacentNat m.num_columns m.num_rows (pickFinset r k wg).1).filter
              (fun idx => decide (idx ∈ avail) && ! hasWaterAdjacent m idx)).length
              (min (randint r (pickFinset r k wg).2 1 3).1 (target - wg.card)))).1,
            x ∈ avail ∧ ¬ (hasWaterAdjacent m x = true) ∧
              Adj m.num_columns m.num_rows (pickFinset r k wg).1 x := by
          intro x hx
          have hval := sampleList_subset r _ _ _ x hx
          have hmem := List.mem_of_mem_filter hval
          have hpred := List.of_mem_filter hval
          simp only [Bool.and_eq_true, decide_eq_true_eq, Bool.not_eq_true'] at hpred
          exact ⟨hpred.1, by simp [hpred.2], mem_adjacentNat_iff.mp hmem⟩
        refine ih _ _ _ ?_ ?_ ?_ ?_ ?_
        · intro x hx
          rcases Finset.mem_union.mp hx with hx | hx
          · exact h1 hx
          · exact (hsub x (by simpa using hx)).1
        · exact Finset.union_subset_union h2 (le_refl _)
        · intro x hx
          rcases Finset.mem_union.mp hx with hx | hx
          · exact h3 x hx
          · exact (hsub x (by simpa using hx)).2.1
        · exact Finset.mem_union_left _ h4
        · intro x hx
          rcases Finset.mem_union.mp hx with hx2 | hx2
          · exact (h5 x hx2).mono Finset.subset_union_left
          · refine ReachIn.tail
              (((h5 _ hcur).mono Finset.subset_union_left)) ?_ hx
            exact (hsub x (by simpa using hx2)).2.2
      · exact ⟨h1, h2, h3, h4, h5⟩

theorem grow_water_group_spec (m : HexMesh) (start : ℕ) (avail : Finset ℕ)
    (r : ℕ → ℕ) (k : ℕ) (hstart : start ∈ avail) :
    (grow_water_group m start avail r k).1 = ∅ ∨
      ((grow_water_group m start avail r k).1 ⊆ avail ∧
       (grow_water_group m start avail r k).1 ⊆ (grow_water_group m start avail r k).2.1 ∧
       4 ≤ (grow_water_group m start avail r k).1.card ∧
       (∀ x ∈ (grow_water_group m start avail r k).1, ¬ (hasWaterAdjacent m x = true)) ∧
       start ∈ (grow_water_group m start avail r k).1 ∧
       (∀ x ∈ (grow_water_group m start avail r k).1,
         ReachIn m.num_columns m.num_rows (grow_water_group m start avail r k).1
           start x)) := by
  simp only [grow_water_group]
  by_cases hcap : max_water_hexagons m.hexagons.length - countWater m.hexagons < 4
  case pos =>
    rw [if_pos hcap]
    left
    rfl
  case neg =>
  rw [if_neg hcap]
  by_cases hwa : hasWaterAdjacent m start = true
  case pos =>
    rw [if_pos hwa]
    left
    rfl
  case neg =>
    rw [if_neg hwa]
    have hinit := growLoop_inv m avail
      (min (randint r k 4 8).1
        (max_water_hexagons m.hexagons.length - countWater m.hexagons))
      r start 20 (randint r k 4 8).2 {start} {start}
      (by simpa using hstart)
      (le_refl _)
      (by
        intro x hx
        rw [Finset.mem_singleton] at hx
        subst hx
        simp [hwa])
      (Finset.mem_singleton_self start)
      (by
        intro x hx
        rw [Finset.mem_singleton] at hx
        rw [hx]
        exact .refl _ (Finset.mem_singleton_self start))
    rcases hres : growLoop m avail
        (min (randint r k 4 8).1
          (max_water_hexagons m.hexagons.length - countWater m.hexagons))
        r 20 (randint r k 4 8).2 {start} {start} with ⟨wg, toRemove, k2⟩
    rw [hres] at hinit
    by_cases hsmall : wg.card < 4
    · left
      simp [hsmall]
    · right
      simp only [hsmall, if_false]
      exact ⟨hinit.1, hinit.2.1, by omega, hinit.2.2.1, hinit.2.2.2.1, hinit.2.2.2.2⟩

/-- The set of indices currently holding water cells. -/
def waterIdx (m : HexMesh) : Finset ℕ :=
  (Finset.range m.hexagons.length).filter
    (fun i => (m.hexagons.getD i dfltCell).isWaterCell)

/-- Separation between a later group `g2` and an earlier group `g`:
disjointness and no adjacency from `g2` into `g`. -/
def GroupRel (C R : ℕ) (g g2 : Finset ℕ) : Prop :=
  (∀ x ∈ g2, x ∉ g) ∧ (∀ x ∈ g2, ∀ y ∈ g, ¬ Adj C R x y)

theorem waterIdx_mem (m : HexMesh) {i : ℕ} :
    i ∈ waterIdx m ↔
      i < m.hexagons.length ∧ (m.hexagons.getD i dfltCell).isWaterCell = true := by
  simp [waterIdx, Finset.mem_filter, Finset.mem_range]

theorem subset_foldr_union {g : Finset ℕ} {gs : List (Finset ℕ)} (hg : g ∈ gs) :
    g ⊆ gs.foldr (· ∪ ·) ∅ := by
  induction gs with
  | nil => cases hg
  | cons h t ih =>
      rcases List.mem_cons.mp hg with rfl | hg2
      · exact Finset.subset_union_left
      · exact (ih hg2).trans Finset.subset_union_right

theorem foldr_union_init (gs : List (Finset ℕ)) (b : Finset ℕ) :
    gs.foldr (· ∪ ·) b = gs.foldr (· ∪ ·) ∅ ∪ b := by
  induction gs with
  | nil => simp
  | cons h t ih =>
      simp only [List.foldr_cons, ih]
      rw [Finset.union_assoc]

theorem foldr_union_append (gs : List (Finset ℕ)) (w : Finset ℕ) :
    (gs ++ [w]).foldr (· ∪ ·) ∅ = gs.foldr (· ∪ ·) ∅ ∪ w := by
  rw [List.foldr_append, List.foldr_cons, List.foldr_nil, foldr_union_init]
  rw [Finset.union_empty]

theorem commitWater_getD (cells : List HexCell) (wg : Finset ℕ)
    (hin : ∀ j ∈ wg, j < cells.length) (i : ℕ) (hi : i < cells.length) :
    (commitWater cells wg).getD i dfltCell =
      if i ∈ wg then { cells.getD i dfltCell with kind := .water }
      else cells.getD i dfltCell := by
  rw [List.getD_eq_getElem?_getD, commitWater_getElem cells wg hin i hi,
    List.getD_eq_getElem?_getD, List.getElem?_eq_getElem hi]
  rfl

theorem hasWaterAdjacent_true_of (m : HexMesh) {x y : ℕ}
    (ha : Adj m.num_columns m.num_rows x y)
    (hw : (m.hexagons.getD y dfltCell).isWaterCell = true) :
    hasWaterAdjacent m x = true := by
  unfold hasWaterAdjacent
  rw [List.any_eq_true]
  exact ⟨y, mem_adjacentNat_iff.mpr ha, hw⟩

/-- Invariant tying a mesh to its trace of committed water groups: fixed
dimensions and size, bounded water count, water cells exactly the union of
the committed groups, every group big, in-range and star-connected, and the
groups pairwise separated. -/
def GenInvariant (C Rr N maxW : ℕ) (m : HexMesh) (gs : List (Finset ℕ)) : Prop :=
  m.num_columns = C ∧ m.num_rows = Rr ∧ m.hexagons.length = N ∧
  countWater m.hexagons ≤ maxW ∧
  waterIdx m = gs.foldr (· ∪ ·) ∅ ∧
  (∀ g ∈ gs, 4 ≤ g.card ∧ (∀ x ∈ g, x < N) ∧
    ∃ s0 ∈ g, ∀ x ∈ g, ReachIn C Rr g s0 x) ∧
  List.Pairwise (GroupRel C Rr) gs

theorem genLoop_inv (r : ℕ → ℕ) (maxW C Rr N : ℕ) (fuel : ℕ) :
    ∀ (m : HexMesh) (avail : Finset ℕ) (wc k : ℕ) (gs : List (Finset ℕ)),
      m.num_columns = C → m.num_rows = Rr → m.hexagons.length = N →
      countWater m.hexagons = wc → wc ≤ maxW →
      (∀ i ∈ avail, i < N ∧ ¬ ((m.hexagons.getD i dfltCell).isWaterCell = true)) →
      waterIdx m = gs.foldr (· ∪ ·) ∅ →
      (∀ g ∈ gs, 4 ≤ g.card ∧ (∀ x ∈ g, x < N) ∧
        ∃ s0 ∈ g, ∀ x ∈ g, ReachIn C Rr g s0 x) →
      List.Pairwise (GroupRel C Rr) gs →
      GenInvariant C Rr N maxW (genLoop r maxW fuel m avail wc k gs).1
        (genLoop r maxW fuel m avail wc k gs).2.1 := by
  induction fuel with
  | zero =>
      intro m avail wc k gs hC hR hN hcnt hle havail hwidx hgroups hpair
      exact ⟨hC, hR, hN, hcnt ▸ hle, hwidx, hgroups, hpair⟩
  | succ fuel ih =>
      intro m avail wc k gs hC hR hN hcnt hle havail hwidx hgroups hpair
      simp only [genLoop]
      by_cases h1 : wc < maxW
      case neg =>
        rw [if_neg h1]
        exact ⟨hC, hR, hN, hcnt ▸ hle, hwidx, hgroups, hpair⟩
      case pos =>
      rw [if_pos h1]
      by_cases h2 : avail = ∅
      case pos =>
        rw [if_pos h2]
        exact ⟨hC, hR, hN, hcnt ▸ hle, hwidx, hgroups, hpair⟩
      case neg =>
      rw [if_neg h2]
      by_cases h3 : maxW < wc + 4
      case pos =>
        rw [if_pos h3]
        exact ⟨hC, hR, hN, hcnt ▸ hle, hwidx, hgroups, hpair⟩
      case neg =>
      rw [if_neg h3]
      have hstartmem : (pickFinset r k avail).1 ∈ avail :=
        pickFinset_mem r k avail (Finset.nonempty_iff_ne_empty.mpr h2)
      have hspec := grow_water_group_spec m (pickFinset r k avail).1 avail r
        (pickFinset r k avail).2 hstartmem
      rcases hgw : grow_water_group m (pickFinset r k avail).1 avail r
          (pickFinset r k avail).2 with ⟨wg, toRemove, k2⟩
      rw [hgw] at hspec
      by_cases h4 : wg ≠ ∅ ∧ wc + wg.card ≤ maxW
      case neg =>
        rw [if_neg h4]
        exact ih m (avail \ toRemove) wc k2 gs hC hR hN hcnt hle
          (fun i hi => havail i (Finset.mem_sdiff.mp hi).1) hwidx hgroups hpair
      case pos =>
      rw [if_pos h4]
      rcases hspec with hempty | ⟨hsub, hsubR, hcard, hnwa, hstart0, hreach⟩
      · exact absurd hempty h4.1
      -- facts about the committed group
      have hwgN : ∀ x ∈ wg, x < m.hexagons.length := by
        intro x hx
        rw [hN]
        exact (havail x (hsub hx)).1
      have hwgNW : ∀ x ∈ wg, ¬ ((m.hexagons.getD x dfltCell).isWaterCell = true) :=
        fun x hx => (havail x (hsub hx)).2
      have hdisj : ∀ x ∈ wg, x ∉ waterIdx m := by
        intro x hx hmem
        exact hwgNW x hx ((waterIdx_mem m).mp hmem).2
      have hnoadj : ∀ x ∈ wg, ∀ y ∈ waterIdx m, ¬ Adj C Rr x y := by
        intro x hx y hy hadj
        apply hnwa x hx
        refine hasWaterAdjacent_true_of m ?_ ((waterIdx_mem m).mp hy).2
        rw [hC, hR]
        exact hadj
      refine ih _ (avail \ toRemove) (wc + wg.card) k2 (gs ++ [wg]) hC hR ?_ ?_ h4.2
        ?_ ?_ ?_ ?_
      · rw [commitWater_length, hN]
      · rw [commitWater_count m.hexagons wg hwgN hwgNW, hcnt]
      · intro i hi
        obtain ⟨hiav, hirm⟩ := Finset.mem_sdiff.mp hi
        obtain ⟨hiN, hinw⟩ := havail i hiav
        refine ⟨hiN, ?_⟩
        rw [commitWater_getD m.hexagons wg hwgN i (by rwa [hN])]
        rw [if_neg (fun hbad => hirm (hsubR hbad))]
        exact hinw
      · -- water index of the committed mesh
        have hwidx2 : waterIdx { m with hexagons := commitWater m.hexagons wg }
            = waterIdx m ∪ wg := by
          ext i
          rw [waterIdx_mem, Finset.mem_union, waterIdx_mem]
          constructor
          · rintro ⟨hiN, hiw⟩
            rw [commitWater_length] at hiN
            rw [commitWater_getD m.hexagons wg hwgN i hiN] at hiw
            by_cases hiwg : i ∈ wg
            · exact Or.inr hiwg
            · rw [if_neg hiwg] at hiw
              exact Or.inl ⟨hiN, hiw⟩
          · intro hcase
            have hiN : i < m.hexagons.length := by
              rcases hcase with ⟨hiN, -⟩ | hiw
              · exact hiN
              · exact hwgN i hiw
            refine ⟨by rwa [commitWater_length], ?_⟩
            rw [commitWater_getD m.hexagons wg hwgN i hiN]
            rcases hcase with ⟨-, hiw⟩ | hiw
            · by_cases hiwg : i ∈ wg
              · rw [if_pos hiwg]
                rfl
              · rw [if_neg hiwg]
                exact hiw
            · rw [if_pos hiw]
              rfl
        rw [hwidx2, foldr_union_append, hwidx]
      · intro g hg
        rcases List.mem_append.mp hg with hg | hg
        · exact hgroups g hg
        · rw [List.mem_singleton] at hg
          subst hg
          refine ⟨hcard, fun x hx => hN ▸ hwgN x hx, ⟨_, hstart0, ?_⟩⟩
          intro x hx
          have := hreach x hx
          rwa [hC, hR] at this
      · rw [List.pairwise_append]
        refine ⟨hpair, by simp, ?_⟩
        intro g hg w hw
        rw [List.mem_singleton] at hw
        subst hw
        have hgsub : g ⊆ waterIdx m := hwidx ▸ subset_foldr_union hg
        exact ⟨fun x hx hxg => hdisj x hx (hgsub hxg),
          fun x hx y hy => hnoadj x hx y (hgsub hy)⟩

theorem waterIdx_empty_of_count_zero (m : HexMesh)
    (h : countWater m.hexagons = 0) : waterIdx m = ∅ := by
  ext i
  simp only [waterIdx, Finset.mem_filter, Finset.mem_range, Finset.not_mem_empty,
    iff_false, not_and]
  intro hi
  have hfil : m.hexagons.filter (fun h => h.isWaterCell) = [] :=
    List.length_eq_zero.mp h
  have hmem : m.hexagons.getD i dfltCell ∈ m.hexagons := by
    rw [List.getD_eq_getElem?_getD, List.getElem?_eq_getElem hi]
    exact List.getElem_mem hi
  have := List.filter_eq_nil.mp hfil _ hmem
  simpa using this

theorem mem_foldr_union {x : ℕ} {gs : List (Finset ℕ)}
    (hx : x ∈ gs.foldr (· ∪ ·) ∅) : ∃ g ∈ gs, x ∈ g := by
  induction gs with
  | nil => simp at hx
  | cons h t ih =>
      rw [List.foldr_cons, Finset.mem_union] at hx
      rcases hx with hx | hx
      · exact ⟨h, List.mem_cons_self h t, hx⟩
      · obtain ⟨g, hg, hxg⟩ := ih hx
        exact ⟨g, List.mem_cons_of_mem h hg, hxg⟩

theorem generate_water_groups_spec (m : HexMesh) (r : ℕ → ℕ) (k : ℕ)
    (h0 : countWater m.hexagons = 0) :
    GenInvariant m.num_columns m.num_rows m.hexagons.length
      (max_water_hexagons m.hexagons.length)
      (generate_water_groups m r k).1 (generate_water_groups m r k).2 := by
  have hwempty : waterIdx m = ∅ := waterIdx_empty_of_count_zero m h0
  simp only [generate_water_groups]
  by_cases hge : countWater m.hexagons ≥ max_water_hexagons m.hexagons.length
  case pos =>
    rw [if_pos hge]
    exact ⟨rfl, rfl, rfl, h0 ▸ Nat.zero_le _, by simpa using hwempty, by simp, by simp⟩
  case neg =>
    rw [if_neg hge]
    have hinv := genLoop_inv r (max_water_hexagons m.hexagons.length)
      m.num_columns m.num_rows m.hexagons.length (m.hexagons.length / 2)
      m ((Finset.range m.hexagons.length).filter
        (fun i => ! (m.hexagons.getD i dfltCell).isWaterCell))
      (countWater m.hexagons) k []
      rfl rfl rfl rfl (by omega)
      (by
        intro i hi
        obtain ⟨hir, hip⟩ := Finset.mem_filter.mp hi
        exact ⟨Finset.mem_range.mp hir, by simpa using hip⟩)
      (by simpa using hwempty)
      (by simp)
      (by simp)
    rcases hgl : genLoop r (max_water_hexagons m.hexagons.length)
        (m.hexagons.length / 2) m
        ((Finset.range m.hexagons.length).filter
          (fun i => ! (m.hexagons.getD i dfltCell).isWaterCell))
        (countWater m.hexagons) k [] with ⟨m2, gs, k2⟩
    rw [hgl] at hinv
    exact hinv

/-- Claim C2: terrain generation (which starts from a water-free grid) never
produces more water cells than `int(total · MAX_WATER_PERCENTAGE)`, whatever
the random draws; the number of cells is unchanged. -/
theorem C2_water_fraction_bounded (m : HexMesh) (r : ℕ → ℕ) (k : ℕ)
    (h0 : countWater m.hexagons = 0)
    (hlen : m.hexagons.length = m.num_columns * m.num_rows) :
    countWater (generate_water_groups m r k).1.hexagons
      ≤ max_water_hexagons (m.num_columns * m.num_rows) ∧
    (generate_water_groups m r k).1.hexagons.length
      = m.num_columns * m.num_rows := by
  obtain ⟨-, -, hN, hcnt, -, -, -⟩ := generate_water_groups_spec m r k h0
  rw [hlen] at hN hcnt
  exact ⟨hcnt, hN⟩

/-- A 2×2 all-ground mesh used by the C2 and C3 witnesses. -/
def witnessMeshGround : HexMesh :=
  ⟨2, 2, [⟨1, 1, 1, .ground⟩, ⟨1, 3, 1, .ground⟩, ⟨3, 2, 1, .ground⟩, ⟨3, 4, 1, .ground⟩],
    (0, 4, 0, 4), 1⟩

/-- Claim C2 witness. -/
theorem C2_water_fraction_bounded_witness :
    countWater (generate_water_groups witnessMeshGround (fun _ => 0) 0).1.hexagons
      ≤ max_water_hexagons (witnessMeshGround.num_columns * witnessMeshGround.num_rows) ∧
    (generate_water_groups witnessMeshGround (fun _ => 0) 0).1.hexagons.length
      = witnessMeshGround.num_columns * witnessMeshGround.num_rows :=
  C2_water_fraction_bounded witnessMeshGround (fun _ => 0) 0
    (by norm_num [witnessMeshGround, countWater, HexCell.isWaterCell, List.filter])
    (by norm_num [witnessMeshGround])

/-- Full (symmetric) separation between two groups: disjointness and no
adjacency in either direction. -/
def Sep (C R : ℕ) (g g2 : Finset ℕ) : Prop :=
  (∀ x ∈ g, x ∉ g2) ∧ (∀ x ∈ g, ∀ y ∈ g2, ¬ Adj C R x y) ∧
  (∀ x ∈ g2, ∀ y ∈ g, ¬ Adj C R x y)

theorem Sep.symmetric (C R : ℕ) : Symmetric (Sep C R) := by
  rintro g g2 ⟨hd, h1, h2⟩
  exact ⟨fun x hx hxg => hd x hxg hx, h2, h1⟩

/-- If the water set is partitioned into connected, pairwise separated
groups, then the connected component of each water cell is exactly its
group. -/
theorem component_eq_group (C R : ℕ) (gs : List (Finset ℕ)) (W : Finset ℕ)
    (hW : W = gs.foldr (· ∪ ·) ∅)
    (hconn : ∀ g ∈ gs, ∀ x ∈ g, ∀ y ∈ g, ReachIn C R g x y)
    (hsep : List.Pairwise (Sep C R) gs)
    {x : ℕ} (hx : x ∈ W) :
    ∃ g ∈ gs, x ∈ g ∧ ∀ y, (ReachIn C R W x y ↔ y ∈ g) := by
  obtain ⟨g, hg, hxg⟩ := mem_foldr_union (hW ▸ hx)
  have hkey : ∀ {a b : ℕ}, ReachIn C R W a b → a ∈ g → b ∈ g := by
    intro a b h
    induction h with
    | refl hx2 => exact id
    | @tail y z h ha hz ih =>
        intro hag
        have hyg := ih hag
        by_cases hzg : z ∈ g
        · exact hzg
        · exfalso
          obtain ⟨g2, hg2, hzg2⟩ := mem_foldr_union (hW ▸ hz)
          have hne : g ≠ g2 := fun he => hzg (he ▸ hzg2)
          have hsep2 := hsep.forall (Sep.symmetric C R) hg hg2 hne
          exact hsep2.2.1 _ hyg _ hzg2 ha
  refine ⟨g, hg, hxg, fun y => ⟨fun h => hkey h hxg, fun hyg => ?_⟩⟩
  exact (hconn g hg x hxg y hyg).mono (by rw [hW]; exact subset_foldr_union hg)

/-- Claim C3: starting from a water-free grid with `num_columns · num_rows`
cells, every committed water group has at least four cells, distinct
committed groups are never adjacent (in either direction) and are disjoint,
and the maximal connected component of every water cell in the final mesh is
exactly its committed group (hence has at least four cells). -/
theorem C3_water_groups_connected_min4_separated
    (m : HexMesh) (r : ℕ → ℕ) (k : ℕ)
    (h0 : countWater m.hexagons = 0)
    (hlen : m.hexagons.length = m.num_columns * m.num_rows)
    (hR : 1 ≤ m.num_rows) :
    (∀ g ∈ (generate_water_groups m r k).2, 4 ≤ g.card) ∧
    List.Pairwise (Sep m.num_columns m.num_rows) (generate_water_groups m r k).2 ∧
    (∀ x ∈ waterIdx (generate_water_groups m r k).1,
      ∃ g ∈ (generate_water_groups m r k).2, x ∈ g ∧
        ∀ y, (ReachIn m.num_columns m.num_rows
            (waterIdx (generate_water_groups m r k).1) x y ↔ y ∈ g)) := by
  obtain ⟨hC, hRr, hN, hcnt, hwidx, hgroups, hpair⟩ :=
    generate_water_groups_spec m r k h0
  have hR0 : 0 < m.num_rows := hR
  have hlt : ∀ g ∈ (generate_water_groups m r k).2, ∀ x ∈ g,
      x < m.num_columns * m.num_rows := by
    intro g hg x hx
    have := (hgroups g hg).2.1 x hx
    rwa [hlen] at this
  have hconn : ∀ g ∈ (generate_water_groups m r k).2, ∀ x ∈ g, ∀ y ∈ g,
      ReachIn m.num_columns m.num_rows g x y := by
    intro g hg x hx y hy
    obtain ⟨-, -, s0, hs0, hstar⟩ := hgroups g hg
    have hWlt : ∀ w ∈ g, w < m.num_columns * m.num_rows := hlt g hg
    exact ((hstar x hx).symm hR0 hWlt).trans (hstar y hy)
  have hsep : List.Pairwise (Sep m.num_columns m.num_rows)
      (generate_water_groups m r k).2 := by
    refine hpair.imp_of_mem ?_
    rintro g g2 hg hg2 ⟨hd, hadj⟩
    refine ⟨fun x hx hx2 => hd x hx2 hx, ?_, hadj⟩
    intro x hx y hy hadjxy
    exact hadj y hy x hx (adj_symm hR0 (hlt g hg x hx) hadjxy)
  refine ⟨fun g hg => (hgroups g hg).1, hsep, ?_⟩
  intro x hx
  exact component_eq_group m.num_columns m.num_rows _ _ hwidx hconn hsep hx

/-- Claim C3 witness. -/
theorem C3_water_groups_connected_min4_separated_witness :
    (∀ g ∈ (generate_water_groups witnessMeshGround (fun _ => 0) 0).2, 4 ≤ g.card) ∧
    List.Pairwise (Sep witnessMeshGround.num_columns witnessMeshGround.num_rows)
      (generate_water_groups witnessMeshGround (fun _ => 0) 0).2 ∧
    (∀ x ∈ waterIdx (generate_water_groups witnessMeshGround (fun _ => 0) 0).1,
      ∃ g ∈ (generate_water_groups witnessMeshGround (fun _ => 0) 0).2, x ∈ g ∧
        ∀ y, (ReachIn witnessMeshGround.num_columns witnessMeshGround.num_rows
            (waterIdx (generate_water_groups witnessMeshGround (fun _ => 0) 0).1) x y
          ↔ y ∈ g)) :=
  C3_water_groups_connected_min4_separated witnessMeshGround (fun _ => 0) 0
    (by norm_num [witnessMeshGround, countWater, HexCell.isWaterCell, List.filter])
    (by norm_num [witnessMeshGround])
    (by norm_num [witnessMeshGround])

end LifeSim
